import Mathlib

/-!
# Verification of `src/vs/editor/contrib/focusOnHover/focusOnHover.ts`

A shallow embedding of the `FocusOnHoverController` editor contribution and of
the host events it reacts to, together with proofs about the controller's
registry, terminal-manager role, and terminal-hook bookkeeping.

Modelling conventions:

* Disposables (`IDisposable`) are subscription identifiers (`Nat`), allocated
  from a global counter `nextSub`; `subDisposed` is the set of identifiers on
  which `dispose()` has been called.  Disposing twice is harmless, as for the
  event-subscription disposables involved here.
* `FocusOnHoverController.Instances` (the static registry) is the list
  `Sys.instances` of controller ids, in push order.  `Array.prototype.splice`
  and `Array.prototype.indexOf` are modelled exactly, including the negative
  `-1` start index `indexOf` produces for a missing element.
* `_terminalHooks` is a JavaScript `Map<number, IDisposable>`: the source
  writes to it with bracket assignment (`map[id] = d`), which creates plain
  object properties, while `has` / `delete` / `clear` act on the `Map`'s
  internal entry list.  `JsMap` therefore keeps the two stores separate:
  `props` holds the object properties (read by bracket access and iterated by
  `for..in`), `entries` the internal `Map` entries.
* Each controller stores the `focusOnHover` flag of its own editor's current
  configuration (`flag`); a configuration-change event with `contribInfo` set
  is modelled by `Op.configChange`, carrying the new flag value.
* The terminal service keeps the open terminals (`terminals`) and its two
  event-emitter listener lists (subscription id together with the id of the
  controller whose callback was registered), in subscription order.
* `alive` is specification bookkeeping only — "dispose has not been called on
  this instance" — and is read by no transition.
-/

namespace FocusOnHover

/-- One JavaScript `Map<number, IDisposable>` as the source uses it: `props`
are the plain object properties created by bracket assignment, `entries` the
internal `Map` entries touched by `has`/`delete`/`clear`.  Values are
subscription ids. -/
structure JsMap where
  props : List (Nat × Nat)
  entries : List (Nat × Nat)
  deriving Repr, DecidableEq

def emptyJsMap : JsMap := ⟨[], []⟩

/-- Property assignment `obj[k] = v`: overwrite the binding of `k` if present,
otherwise add it. -/
def setAssoc : List (Nat × Nat) → Nat → Nat → List (Nat × Nat)
  | [], k, v => [(k, v)]
  | (k', v') :: rest, k, v =>
      if k' = k then (k, v) :: rest else (k', v') :: setAssoc rest k v

/-- The fields of one `FocusOnHoverController` instance.
`didChangeSub` is `_didChangeConfigurationHandler`, `mouseSub` is
`_editorMouseMoveHandler`, `hooks` is `_terminalHooks` (`none` while the field
is still `undefined`), `createdSub`/`disposedSub` are
`_terminalInstanceCreatedHandler`/`_terminalInstanceDisposedHandler`.
`flag` is the editor's current `contribInfo.focusOnHover` configuration value,
`cid` the instance's identity, `alive` the (ghost) not-yet-disposed marker. -/
structure Controller where
  cid : Nat
  flag : Bool
  alive : Bool
  didChangeSub : Nat
  mouseSub : Option Nat
  hooks : Option JsMap
  createdSub : Option Nat
  disposedSub : Option Nat
  deriving Repr, DecidableEq

/-- The whole system: the static registry, every controller ever constructed
(in creation order), the terminal service's open terminals and listener lists,
and the disposable bookkeeping. -/
structure Sys where
  instances : List Nat
  ctrls : List Controller
  terminals : List Nat
  nextSub : Nat
  subDisposed : List Nat
  createdListeners : List (Nat × Nat)
  disposedListeners : List (Nat × Nat)
  nextCid : Nat
  deriving Repr, DecidableEq

def init : Sys :=
  { instances := [], ctrls := [], terminals := [], nextSub := 0,
    subDisposed := [], createdListeners := [], disposedListeners := [],
    nextCid := 0 }

/-- `disposable.dispose()`. -/
def dispSub (s : Sys) (n : Nat) : Sys :=
  { s with subDisposed := n :: s.subDisposed }

/-- Update the controller record with id `i` (all transitions preserve
`cid`, so at most one record matches). -/
def updCtrl (s : Sys) (i : Nat) (f : Controller → Controller) : Sys :=
  { s with ctrls := s.ctrls.map fun c => if c.cid = i then f c else c }

/-- Look up the controller record with id `i`. -/
def getCtrl (s : Sys) (i : Nat) : Option Controller :=
  s.ctrls.find? fun c => c.cid = i

/-- `Array.prototype.indexOf`: first index of `x`, or `-1`. -/
def jsIndexOf (l : List Nat) (x : Nat) : Int :=
  match l.findIdx? (· = x) with
  | some i => (i : Int)
  | none => -1

/-- The effective start index of `Array.prototype.splice(i, …)` on an array
of length `len`: a negative start counts from the end and is clamped at `0`,
a nonnegative one is clamped at `len`. -/
def jsSpliceStart (len : Nat) (i : Int) : Nat :=
  (if i < 0 then max ((len : Int) + i) 0 else min i (len : Int)).toNat

/-- `Array.prototype.splice(i, 1)`: remove the element at the effective start
index, if any. -/
def jsSpliceRemove1 (l : List Nat) (i : Int) : List Nat :=
  l.take (jsSpliceStart l.length i) ++ l.drop (jsSpliceStart l.length i + 1)

/-- Dispose every value of a property list (the `for..in` disposal loops). -/
def dispAll (s : Sys) (ps : List (Nat × Nat)) : Sys :=
  ps.foldl (fun acc p => dispSub acc p.2) s

/-- `_handleTerminals`: subscribe this controller's callbacks to the terminal
service's instance-created and instance-disposed events. -/
def handleTerminals (s : Sys) (i : Nat) : Sys :=
  let h1 := s.nextSub
  let h2 := s.nextSub + 1
  let s1 := { s with
    nextSub := s.nextSub + 2,
    createdListeners := s.createdListeners ++ [(h1, i)],
    disposedListeners := s.disposedListeners ++ [(h2, i)] }
  updCtrl s1 i fun c => { c with createdSub := some h1, disposedSub := some h2 }

/-- `_onTerminalCreated`: if the editor's `focusOnHover` flag is set, store a
fresh mouse-move hook for the terminal under its id (bracket assignment, so a
property write).  A controller with `hooks = none` never has this callback
subscribed, so that branch (a JavaScript `TypeError`) is unreachable and kept
as a no-op. -/
def onTerminalCreated (s : Sys) (i t : Nat) : Sys :=
  match getCtrl s i with
  | none => s
  | some c =>
    if c.flag then
      match c.hooks with
      | none => s
      | some m =>
          let h := s.nextSub
          updCtrl { s with nextSub := s.nextSub + 1 } i
            fun d => { d with hooks := some { m with props := setAssoc m.props t h } }
    else s

/-- `_onTerminalDisposed`: guarded by `Map.has`, which consults the internal
entries; on a hit it would dispose the property value (if any) and
`Map.delete` the entry. -/
def onTerminalDisposed (s : Sys) (i t : Nat) : Sys :=
  match getCtrl s i with
  | none => s
  | some c =>
    match c.hooks with
    | none => s
    | some m =>
      if (m.entries.lookup t).isSome then
        let s1 := match m.props.lookup t with
                  | some h => dispSub s h
                  | none => s
        updCtrl s1 i
          fun d => { d with hooks := some { m with entries := m.entries.filter (fun p => p.1 ≠ t) } }
      else s

/-- The per-terminal loop of `_hookEvents`: for each open terminal, store a
fresh mouse-move hook under its id (bracket assignment). -/
def hookTerminals (s : Sys) (i : Nat) : List Nat → Sys
  | [] => s
  | t :: ts =>
      let h := s.nextSub
      let s2 := updCtrl { s with nextSub := s.nextSub + 1 } i
        fun d =>
          match d.hooks with
          | some m => { d with hooks := some { m with props := setAssoc m.props t h } }
          | none => d
      hookTerminals s2 i ts

/-- `_hookEvents`: only if the flag is enabled, subscribe the editor
mouse-move handler; if this instance manages the terminals
(`_manageTerminals`, i.e. `createdSub` is set), hook every currently open
terminal. -/
def hookEvents (s : Sys) (i : Nat) : Sys :=
  match getCtrl s i with
  | none => s
  | some c =>
    if c.flag then
      let h := s.nextSub
      let s1 := updCtrl { s with nextSub := s.nextSub + 1 } i
        fun d => { d with mouseSub := some h }
      if c.createdSub.isSome then hookTerminals s1 i s1.terminals else s1
    else s

/-- `_unhookEvents`: if the editor mouse-move handler exists, dispose it and
null the field; in that case, if this instance manages the terminals, dispose
every property value of `_terminalHooks` (`for..in`) and call `Map.clear`,
which empties the internal entries but leaves the properties in place. -/
def unhookEvents (s : Sys) (i : Nat) : Sys :=
  match getCtrl s i with
  | none => s
  | some c =>
    match c.mouseSub with
    | none => s
    | some h =>
      let s1 := updCtrl (dispSub s h) i fun d => { d with mouseSub := none }
      if c.createdSub.isSome then
        match c.hooks with
        | none => s1
        | some m =>
            let s2 := dispAll s1 m.props
            updCtrl s2 i fun d => { d with hooks := some { props := m.props, entries := [] } }
      else s1

/-- The constructor: subscribe the configuration-change handler; if the
registry is empty, create the hook map and take the terminal-manager role;
run `_hookEvents`; push onto the registry. -/
def newCtrl (s : Sys) (flag : Bool) : Sys :=
  let cid := s.nextCid
  let cfg := s.nextSub
  let base : Controller :=
    { cid := cid, flag := flag, alive := true, didChangeSub := cfg,
      mouseSub := none, hooks := none, createdSub := none, disposedSub := none }
  let s1 := { s with nextSub := s.nextSub + 1, nextCid := cid + 1,
                     ctrls := s.ctrls ++ [base] }
  let s2 := if s1.instances.isEmpty then
              handleTerminals (updCtrl s1 cid fun c => { c with hooks := some emptyJsMap }) cid
            else s1
  let s3 := hookEvents s2 cid
  { s3 with instances := s3.instances ++ [cid] }

/-- The manager part of `dispose` (run after the registry splice): if this
instance holds the terminal-created subscription, dispose the two
terminal-service subscriptions, then hand the hook map to `Instances[0]`
(re-running `_handleTerminals` there and resetting the own field to a fresh
`Map`) or, with no instance left, dispose every hook property and
`Map.clear`. -/
def disposeMgrPart (s : Sys) (i : Nat) (c : Controller) : Sys :=
  match c.createdSub with
  | none => s
  | some cs =>
    let sA := dispSub s cs
    let sB := match c.disposedSub with
              | some ds => dispSub sA ds
              | none => sA
    if 0 < sB.instances.length then
      match sB.instances.head? with
      | some other =>
          let sC := updCtrl sB other fun d => { d with hooks := c.hooks }
          let sD := handleTerminals sC other
          updCtrl sD i fun d => { d with hooks := some emptyJsMap }
      | none => sB
    else
      let m := c.hooks.getD emptyJsMap
      let sC := dispAll sB m.props
      updCtrl sC i fun d => { d with hooks := some { props := m.props, entries := [] } }

/-- `dispose`: dispose the configuration handler; `indexOf`/`splice` the
registry; run the manager part; only then `_unhookEvents`.  `alive := false`
is the ghost marker for "dispose has been called". -/
def disposeCtrlBody (s : Sys) (i : Nat) (c : Controller) : Sys :=
    let s1 := dispSub s c.didChangeSub
    let s2 := { s1 with instances := jsSpliceRemove1 s1.instances (jsIndexOf s1.instances i) }
    let s3 := disposeMgrPart s2 i c
    let s4 := unhookEvents s3 i
    updCtrl s4 i fun d => { d with alive := false }

/-- `dispose` proper: a no-op on an id that was never constructed. -/
def disposeCtrl (s : Sys) (i : Nat) : Sys :=
  match getCtrl s i with
  | none => s
  | some c => disposeCtrlBody s i c

/-- Fire the terminal service's instance-created event: every listener whose
subscription is still undisposed runs, in subscription order. -/
def fireCreated (s : Sys) (t : Nat) : Sys :=
  s.createdListeners.foldl
    (fun acc p => if acc.subDisposed.contains p.1 then acc else onTerminalCreated acc p.2 t) s

/-- Fire the instance-disposed event. -/
def fireDisposed (s : Sys) (t : Nat) : Sys :=
  s.disposedListeners.foldl
    (fun acc p => if acc.subDisposed.contains p.1 then acc else onTerminalDisposed acc p.2 t) s

/-- A terminal opens: it joins `terminalInstances`, then the created event
fires. -/
def termOpen (s : Sys) (t : Nat) : Sys :=
  fireCreated { s with terminals := s.terminals ++ [t] } t

/-- A terminal is disposed: it leaves `terminalInstances` and the disposed
event fires. -/
def termClose (s : Sys) (t : Nat) : Sys :=
  fireDisposed { s with terminals := s.terminals.filter (fun u => u ≠ t) } t

/-- A configuration change with `contribInfo` set on controller `i`'s editor:
the editor's flag becomes `b`; if the controller's configuration-change
subscription is still live, its handler runs `_unhookEvents` then
`_hookEvents`. -/
def configChange (s : Sys) (i : Nat) (b : Bool) : Sys :=
  match getCtrl s i with
  | none => s
  | some c =>
    let s1 := updCtrl s i fun d => { d with flag := b }
    if s.subDisposed.contains c.didChangeSub then s1
    else hookEvents (unhookEvents s1 i) i

/-- The observable operations. -/
inductive Op where
  | newCtrl (flag : Bool)
  | disposeCtrl (cid : Nat)
  | termOpen (t : Nat)
  | termClose (t : Nat)
  | configChange (cid : Nat) (b : Bool)
  deriving Repr, DecidableEq

def step (s : Sys) : Op → Sys
  | .newCtrl b => newCtrl s b
  | .disposeCtrl i => disposeCtrl s i
  | .termOpen t => termOpen s t
  | .termClose t => termClose s t
  | .configChange i b => configChange s i b

def runOps (s : Sys) (ops : List Op) : Sys := ops.foldl step s

/-- A well-behaved operation: `dispose` is only called on a live instance
(one still in the registry); everything else is unrestricted. -/
def okOp (s : Sys) : Op → Bool
  | .disposeCtrl i => s.instances.contains i
  | _ => true

/-- A well-behaved operation sequence from `s`. -/
def validOps (s : Sys) : List Op → Bool
  | [] => true
  | op :: ops => okOp s op && validOps (step s op) ops

/-! ## Frame lemmas for the primitive state updates -/

@[simp] theorem updCtrl_instances (s : Sys) (i f) : (updCtrl s i f).instances = s.instances := rfl

@[simp] theorem updCtrl_terminals (s : Sys) (i f) : (updCtrl s i f).terminals = s.terminals := rfl

@[simp] theorem updCtrl_nextSub (s : Sys) (i f) : (updCtrl s i f).nextSub = s.nextSub := rfl

@[simp] theorem updCtrl_subDisposed (s : Sys) (i f) :
    (updCtrl s i f).subDisposed = s.subDisposed := rfl

@[simp] theorem updCtrl_createdListeners (s : Sys) (i f) :
    (updCtrl s i f).createdListeners = s.createdListeners := rfl

@[simp] theorem updCtrl_disposedListeners (s : Sys) (i f) :
    (updCtrl s i f).disposedListeners = s.disposedListeners := rfl

@[simp] theorem updCtrl_nextCid (s : Sys) (i f) : (updCtrl s i f).nextCid = s.nextCid := rfl

@[simp] theorem dispSub_instances (s : Sys) (n) : (dispSub s n).instances = s.instances := rfl

@[simp] theorem dispSub_ctrls (s : Sys) (n) : (dispSub s n).ctrls = s.ctrls := rfl

@[simp] theorem dispSub_terminals (s : Sys) (n) : (dispSub s n).terminals = s.terminals := rfl

@[simp] theorem dispSub_nextSub (s : Sys) (n) : (dispSub s n).nextSub = s.nextSub := rfl

@[simp] theorem dispSub_subDisposed (s : Sys) (n) :
    (dispSub s n).subDisposed = n :: s.subDisposed := rfl

@[simp] theorem dispSub_createdListeners (s : Sys) (n) :
    (dispSub s n).createdListeners = s.createdListeners := rfl

@[simp] theorem dispSub_disposedListeners (s : Sys) (n) :
    (dispSub s n).disposedListeners = s.disposedListeners := rfl

@[simp] theorem dispSub_nextCid (s : Sys) (n) : (dispSub s n).nextCid = s.nextCid := rfl

theorem dispAll_instances (ps : List (Nat × Nat)) (s : Sys) :
    (dispAll s ps).instances = s.instances := by
  induction ps generalizing s with
  | nil => rfl
  | cons p ps ih => simp [dispAll] at ih ⊢; exact ih _

theorem dispAll_ctrls (ps : List (Nat × Nat)) (s : Sys) : (dispAll s ps).ctrls = s.ctrls := by
  induction ps generalizing s with
  | nil => rfl
  | cons p ps ih => simp [dispAll] at ih ⊢; exact ih _

theorem dispAll_terminals (ps : List (Nat × Nat)) (s : Sys) :
    (dispAll s ps).terminals = s.terminals := by
  induction ps generalizing s with
  | nil => rfl
  | cons p ps ih => simp [dispAll] at ih ⊢; exact ih _

theorem dispAll_nextSub (ps : List (Nat × Nat)) (s : Sys) :
    (dispAll s ps).nextSub = s.nextSub := by
  induction ps generalizing s with
  | nil => rfl
  | cons p ps ih => simp [dispAll] at ih ⊢; exact ih _

theorem dispAll_createdListeners (ps : List (Nat × Nat)) (s : Sys) :
    (dispAll s ps).createdListeners = s.createdListeners := by
  induction ps generalizing s with
  | nil => rfl
  | cons p ps ih => simp [dispAll] at ih ⊢; exact ih _

theorem dispAll_disposedListeners (ps : List (Nat × Nat)) (s : Sys) :
    (dispAll s ps).disposedListeners = s.disposedListeners := by
  induction ps generalizing s with
  | nil => rfl
  | cons p ps ih => simp [dispAll] at ih ⊢; exact ih _

theorem dispAll_nextCid (ps : List (Nat × Nat)) (s : Sys) :
    (dispAll s ps).nextCid = s.nextCid := by
  induction ps generalizing s with
  | nil => rfl
  | cons p ps ih => simp [dispAll] at ih ⊢; exact ih _

theorem mem_dispAll_subDisposed (ps : List (Nat × Nat)) (s : Sys) (x : Nat) :
    x ∈ (dispAll s ps).subDisposed ↔ x ∈ s.subDisposed ∨ x ∈ ps.map Prod.snd := by
  induction ps generalizing s with
  | nil => simp [dispAll]
  | cons p ps ih =>
      simp only [dispAll, List.foldl_cons] at ih ⊢
      rw [ih]
      simp [dispSub, List.mem_cons]
      tauto

/-! ## Lookup and update -/

theorem find?_map_updFn (l : List Controller) (i j : Nat) (f : Controller → Controller)
    (hf : ∀ c, (f c).cid = c.cid) :
    (l.map fun c => if c.cid = i then f c else c).find? (fun c => c.cid = j) =
      if i = j then (l.find? (fun c => c.cid = j)).map f
      else l.find? (fun c => c.cid = j) := by
  induction l with
  | nil => simp
  | cons c l ih =>
      by_cases hcj : c.cid = j
      · by_cases hci : c.cid = i
        · have hij : i = j := by rw [← hci, hcj]
          rw [List.map_cons, if_pos hci,
              List.find?_cons_of_pos _ (by simp [hf c, hcj]),
              List.find?_cons_of_pos _ (by simp [hcj]), if_pos hij]
          rfl
        · have hij : ¬ i = j := fun h => hci (by rw [hcj, h])
          rw [List.map_cons, if_neg hci,
              List.find?_cons_of_pos _ (by simp [hcj]),
              List.find?_cons_of_pos _ (by simp [hcj]), if_neg hij]
      · by_cases hci : c.cid = i
        · rw [List.map_cons, if_pos hci,
              List.find?_cons_of_neg _ (by simp [hf c, hcj]),
              List.find?_cons_of_neg _ (by simp [hcj]), ih]
        · rw [List.map_cons, if_neg hci,
              List.find?_cons_of_neg _ (by simp [hcj]),
              List.find?_cons_of_neg _ (by simp [hcj]), ih]

theorem getCtrl_updCtrl (s : Sys) (i j : Nat) (f : Controller → Controller)
    (hf : ∀ c, (f c).cid = c.cid) :
    getCtrl (updCtrl s i f) j =
      if i = j then (getCtrl s i).map f else getCtrl s j := by
  unfold getCtrl updCtrl
  by_cases h : i = j
  · simpa [h] using find?_map_updFn s.ctrls i j f hf
  · simpa [h] using find?_map_updFn s.ctrls i j f hf

theorem getCtrl_mem {s : Sys} {i : Nat} {c : Controller} (h : getCtrl s i = some c) :
    c ∈ s.ctrls ∧ c.cid = i := by
  unfold getCtrl at h
  refine ⟨List.mem_of_find?_eq_some h, ?_⟩
  have := List.find?_some h
  simpa using this

theorem ctrls_map_cid_updCtrl (s : Sys) (i : Nat) (f : Controller → Controller)
    (hf : ∀ c, (f c).cid = c.cid) :
    (updCtrl s i f).ctrls.map (·.cid) = s.ctrls.map (·.cid) := by
  unfold updCtrl
  simp only [List.map_map]
  refine List.map_congr_left fun c _ => ?_
  by_cases h : c.cid = i <;> simp [h, hf c]

/-! ## `indexOf`/`splice` arithmetic -/

theorem jsSpliceStart_zero (n : Nat) : jsSpliceStart n 0 = 0 := by
  unfold jsSpliceStart; split <;> omega

theorem jsSpliceStart_neg_one (n : Nat) : jsSpliceStart n (-1) = n - 1 := by
  unfold jsSpliceStart; split <;> omega

theorem jsSpliceStart_succ (n : Nat) (k : Int) (hk : 0 ≤ k) :
    jsSpliceStart (n + 1) (k + 1) = jsSpliceStart n k + 1 := by
  unfold jsSpliceStart
  split <;> split <;> omega

theorem jsSplice_zero (y : Nat) (l : List Nat) : jsSpliceRemove1 (y :: l) 0 = l := by
  unfold jsSpliceRemove1
  rw [List.length_cons, jsSpliceStart_zero]
  simp

theorem jsSplice_cons_succ (y : Nat) (l : List Nat) (k : Int) (hk : 0 ≤ k) :
    jsSpliceRemove1 (y :: l) (k + 1) = y :: jsSpliceRemove1 l k := by
  unfold jsSpliceRemove1
  rw [List.length_cons, jsSpliceStart_succ _ _ hk]
  simp [List.take_succ_cons, List.drop_succ_cons]

theorem jsSplice_jsIndexOf_of_mem :
    ∀ (l : List Nat), ∀ x ∈ l, jsSpliceRemove1 l (jsIndexOf l x) = l.erase x := by
  intro l
  induction l with
  | nil => intro x hx; cases hx
  | cons y l ih =>
      intro x hx
      by_cases hyx : y = x
      · subst hyx
        have hidx : jsIndexOf (y :: l) y = 0 := by
          unfold jsIndexOf
          rw [List.findIdx?_cons, if_pos (by simp)]
          rfl
        rw [hidx, jsSplice_zero, List.erase_cons_head]
      · have hxl : x ∈ l := by
          rcases List.mem_cons.1 hx with h | h
          · exact absurd h.symm hyx
          · exact h
        obtain ⟨i, hi⟩ : ∃ i, l.findIdx? (fun z => z = x) = some i := by
          cases hfi : l.findIdx? (fun z => z = x) with
          | some i => exact ⟨i, rfl⟩
          | none =>
              exfalso
              rw [List.findIdx?_eq_none_iff] at hfi
              have := hfi x hxl
              simp at this
        have hIdx : jsIndexOf (y :: l) x = (i : Int) + 1 := by
          unfold jsIndexOf
          rw [List.findIdx?_cons, if_neg (by simp [hyx]), List.findIdx?_succ, hi]
          simp
        have hIdx0 : jsIndexOf l x = (i : Int) := by unfold jsIndexOf; rw [hi]
        rw [hIdx, jsSplice_cons_succ _ _ _ (by positivity), ← hIdx0, ih x hxl,
            List.erase_cons_tail (by simp [hyx])]

theorem jsSplice_jsIndexOf_of_not_mem {l : List Nat} {x : Nat} (h : x ∉ l) :
    jsSpliceRemove1 l (jsIndexOf l x) = l.dropLast := by
  have hnone : l.findIdx? (fun z => z = x) = none := by
    rw [List.findIdx?_eq_none_iff]
    intro z hz
    simp only [decide_eq_false_iff_not]
    exact fun hzx => h (hzx ▸ hz)
  have hidx : jsIndexOf l x = -1 := by unfold jsIndexOf; rw [hnone]
  rw [hidx]
  unfold jsSpliceRemove1
  rw [jsSpliceStart_neg_one]
  rcases l.eq_nil_or_concat with rfl | ⟨l', a, rfl⟩
  · simp
  · simp only [List.concat_eq_append]
    have hlen : (l' ++ [a]).length - 1 + 1 = (l' ++ [a]).length := by simp
    rw [hlen, List.drop_length, List.append_nil, List.dropLast_eq_take]

/-! ## The methods do not touch the registry -/

theorem hookTerminals_instances (ts : List Nat) (s : Sys) (i : Nat) :
    (hookTerminals s i ts).instances = s.instances := by
  induction ts generalizing s with
  | nil => rfl
  | cons t ts ih => rw [hookTerminals, ih]; rfl

theorem hookEvents_instances (s : Sys) (i : Nat) :
    (hookEvents s i).instances = s.instances := by
  unfold hookEvents
  split
  · rfl
  · split
    · split
      · simp [hookTerminals_instances]
      · rfl
    · rfl

theorem unhookEvents_instances (s : Sys) (i : Nat) :
    (unhookEvents s i).instances = s.instances := by
  unfold unhookEvents
  split
  · rfl
  · split
    · rfl
    · split
      · split
        · rfl
        · simp [dispAll_instances]
      · rfl

theorem handleTerminals_instances (s : Sys) (i : Nat) :
    (handleTerminals s i).instances = s.instances := rfl

theorem onTerminalCreated_instances (s : Sys) (i t : Nat) :
    (onTerminalCreated s i t).instances = s.instances := by
  unfold onTerminalCreated
  split
  · rfl
  · split
    · split
      · rfl
      · rfl
    · rfl

theorem onTerminalDisposed_instances (s : Sys) (i t : Nat) :
    (onTerminalDisposed s i t).instances = s.instances := by
  unfold onTerminalDisposed
  split
  · rfl
  · split
    · rfl
    · split
      · split <;> rfl
      · rfl

theorem fireCreated_instances (s : Sys) (t : Nat) :
    (fireCreated s t).instances = s.instances := by
  unfold fireCreated
  generalize s.createdListeners = ps
  induction ps generalizing s with
  | nil => rfl
  | cons p ps ih =>
      rw [List.foldl_cons]
      rw [ih]
      split <;> simp [onTerminalCreated_instances]

theorem fireDisposed_instances (s : Sys) (t : Nat) :
    (fireDisposed s t).instances = s.instances := by
  unfold fireDisposed
  generalize s.disposedListeners = ps
  induction ps generalizing s with
  | nil => rfl
  | cons p ps ih =>
      rw [List.foldl_cons]
      rw [ih]
      split <;> simp [onTerminalDisposed_instances]

/-- The registry change of `dispose`, in isolation: everything after the
`indexOf`/`splice` pair leaves `Instances` alone. -/
theorem disposeMgrPart_instances (s : Sys) (i : Nat) (c : Controller) :
    (disposeMgrPart s i c).instances = s.instances := by
  cases hcs : c.createdSub with
  | none => simp [disposeMgrPart, hcs]
  | some cs =>
      cases hds : c.disposedSub with
      | none =>
          simp only [disposeMgrPart, hcs, hds]
          split
          · split <;> simp [handleTerminals_instances]
          · simp [dispAll_instances]
      | some ds =>
          simp only [disposeMgrPart, hcs, hds]
          split
          · split <;> simp [handleTerminals_instances]
          · simp [dispAll_instances]

theorem disposeCtrlBody_instances (s : Sys) (i : Nat) (c : Controller) :
    (disposeCtrlBody s i c).instances
      = jsSpliceRemove1 s.instances (jsIndexOf s.instances i) := by
  unfold disposeCtrlBody
  rw [updCtrl_instances, unhookEvents_instances, disposeMgrPart_instances]
  rfl

theorem disposeCtrl_instances (s : Sys) (i : Nat) (c : Controller)
    (hc : getCtrl s i = some c) :
    (disposeCtrl s i).instances
      = jsSpliceRemove1 s.instances (jsIndexOf s.instances i) := by
  rw [disposeCtrl, hc]
  exact disposeCtrlBody_instances s i c

theorem hookTerminals_terminals (ts : List Nat) (s : Sys) (i : Nat) :
    (hookTerminals s i ts).terminals = s.terminals := by
  induction ts generalizing s with
  | nil => rfl
  | cons t ts ih => rw [hookTerminals, ih]; rfl

theorem hookTerminals_subDisposed (ts : List Nat) (s : Sys) (i : Nat) :
    (hookTerminals s i ts).subDisposed = s.subDisposed := by
  induction ts generalizing s with
  | nil => rfl
  | cons t ts ih => rw [hookTerminals, ih]; rfl

theorem hookTerminals_createdListeners (ts : List Nat) (s : Sys) (i : Nat) :
    (hookTerminals s i ts).createdListeners = s.createdListeners := by
  induction ts generalizing s with
  | nil => rfl
  | cons t ts ih => rw [hookTerminals, ih]; rfl

theorem hookTerminals_disposedListeners (ts : List Nat) (s : Sys) (i : Nat) :
    (hookTerminals s i ts).disposedListeners = s.disposedListeners := by
  induction ts generalizing s with
  | nil => rfl
  | cons t ts ih => rw [hookTerminals, ih]; rfl

theorem hookEvents_terminals (s : Sys) (i : Nat) :
    (hookEvents s i).terminals = s.terminals := by
  unfold hookEvents
  split
  · rfl
  · split
    · split
      · simp [hookTerminals_terminals]
      · rfl
    · rfl

theorem hookEvents_subDisposed (s : Sys) (i : Nat) :
    (hookEvents s i).subDisposed = s.subDisposed := by
  unfold hookEvents
  split
  · rfl
  · split
    · split
      · simp [hookTerminals_subDisposed]
      · rfl
    · rfl

theorem hookEvents_createdListeners (s : Sys) (i : Nat) :
    (hookEvents s i).createdListeners = s.createdListeners := by
  unfold hookEvents
  split
  · rfl
  · split
    · split
      · simp [hookTerminals_createdListeners]
      · rfl
    · rfl

theorem hookEvents_disposedListeners (s : Sys) (i : Nat) :
    (hookEvents s i).disposedListeners = s.disposedListeners := by
  unfold hookEvents
  split
  · rfl
  · split
    · split
      · simp [hookTerminals_disposedListeners]
      · rfl
    · rfl

theorem unhookEvents_terminals (s : Sys) (i : Nat) :
    (unhookEvents s i).terminals = s.terminals := by
  unfold unhookEvents
  split
  · rfl
  · split
    · rfl
    · split
      · split
        · rfl
        · simp [dispAll_terminals]
      · rfl

theorem unhookEvents_nextSub (s : Sys) (i : Nat) :
    (unhookEvents s i).nextSub = s.nextSub := by
  unfold unhookEvents
  split
  · rfl
  · split
    · rfl
    · split
      · split
        · rfl
        · simp [dispAll_nextSub]
      · rfl

theorem unhookEvents_createdListeners (s : Sys) (i : Nat) :
    (unhookEvents s i).createdListeners = s.createdListeners := by
  unfold unhookEvents
  split
  · rfl
  · split
    · rfl
    · split
      · split
        · rfl
        · simp [dispAll_createdListeners]
      · rfl

theorem unhookEvents_disposedListeners (s : Sys) (i : Nat) :
    (unhookEvents s i).disposedListeners = s.disposedListeners := by
  unfold unhookEvents
  split
  · rfl
  · split
    · rfl
    · split
      · split
        · rfl
        · simp [dispAll_disposedListeners]
      · rfl

/-! ## Controller-record lookups through the operations -/

theorem getCtrl_dispSub (s : Sys) (n j : Nat) : getCtrl (dispSub s n) j = getCtrl s j := rfl

theorem getCtrl_dispAll (ps : List (Nat × Nat)) (s : Sys) (j : Nat) :
    getCtrl (dispAll s ps) j = getCtrl s j := by
  unfold getCtrl
  rw [dispAll_ctrls]

theorem getCtrl_updCtrl_ne (s : Sys) (i j : Nat) (f : Controller → Controller)
    (hf : ∀ c, (f c).cid = c.cid) (hij : i ≠ j) :
    getCtrl (updCtrl s i f) j = getCtrl s j := by
  rw [getCtrl_updCtrl s i j f hf, if_neg hij]

theorem getCtrl_handleTerminals_ne (s : Sys) (i j : Nat) (hij : i ≠ j) :
    getCtrl (handleTerminals s i) j = getCtrl s j := by
  simp only [handleTerminals]
  rw [getCtrl_updCtrl_ne _ i j
      (fun c => { c with createdSub := some s.nextSub, disposedSub := some (s.nextSub + 1) })
      (fun c => rfl) hij]
  rfl

theorem getCtrl_unhookEvents_ne (s : Sys) (i j : Nat) (hij : j ≠ i) :
    getCtrl (unhookEvents s i) j = getCtrl s j := by
  unfold unhookEvents
  split
  · rfl
  · split
    · rfl
    · split
      · split
        · rw [getCtrl_updCtrl_ne _ i j (fun d => { d with mouseSub := none })
              (fun c => rfl) (Ne.symm hij)]
          rfl
        · rename_i m heq
          rw [getCtrl_updCtrl_ne _ i j
                (fun d => { d with hooks := some { props := m.props, entries := [] } })
                (fun c => rfl) (Ne.symm hij),
              getCtrl_dispAll,
              getCtrl_updCtrl_ne _ i j (fun d => { d with mouseSub := none })
                (fun c => rfl) (Ne.symm hij)]
          rfl
      · rw [getCtrl_updCtrl_ne _ i j (fun d => { d with mouseSub := none })
            (fun c => rfl) (Ne.symm hij)]
        rfl

/-- What `_unhookEvents` disposes on a controller that does not manage the
terminals: nothing if the editor mouse-move handler is absent, else exactly
that handler. -/
theorem unhookEvents_subDisposed_nonmgr (s : Sys) (i : Nat) (c : Controller)
    (hc : getCtrl s i = some c) (hnm : c.createdSub = none) :
    (unhookEvents s i).subDisposed
      = match c.mouseSub with
        | none => s.subDisposed
        | some h => h :: s.subDisposed := by
  simp only [unhookEvents, hc]
  cases hm : c.mouseSub with
  | none => simp [hm]
  | some h => simp [hm, hnm]

theorem getCtrl_updCtrl_self (s : Sys) (i : Nat) (f : Controller → Controller)
    (hf : ∀ c, (f c).cid = c.cid) :
    getCtrl (updCtrl s i f) i = (getCtrl s i).map f := by
  rw [getCtrl_updCtrl s i i f hf, if_pos rfl]

theorem getCtrl_handleTerminals_self (s : Sys) (i : Nat) :
    getCtrl (handleTerminals s i) i
      = (getCtrl s i).map
          (fun c => { c with createdSub := some s.nextSub,
                             disposedSub := some (s.nextSub + 1) }) := by
  simp only [handleTerminals]
  rw [getCtrl_updCtrl_self _ i
      (fun c => { c with createdSub := some s.nextSub, disposedSub := some (s.nextSub + 1) })
      (fun c => rfl)]
  rfl

theorem handleTerminals_subDisposed (s : Sys) (i : Nat) :
    (handleTerminals s i).subDisposed = s.subDisposed := rfl

theorem handleTerminals_nextSub (s : Sys) (i : Nat) :
    (handleTerminals s i).nextSub = s.nextSub + 2 := rfl

/-- Membership in the disposed set after `_unhookEvents`: beyond what was
already disposed, exactly the editor mouse-move handler (if present) and — if
it was present and the controller manages the terminals — every value of the
hook map's property list. -/
theorem unhookEvents_subDisposed_mem (s : Sys) (i : Nat) (c : Controller)
    (hc : getCtrl s i = some c) (x : Nat) :
    x ∈ (unhookEvents s i).subDisposed ↔
      (x ∈ s.subDisposed ∨ c.mouseSub = some x
        ∨ (c.mouseSub.isSome ∧ c.createdSub.isSome
            ∧ ∃ m, c.hooks = some m ∧ x ∈ m.props.map Prod.snd)) := by
  simp only [unhookEvents, hc]
  cases hmo : c.mouseSub with
  | none => simp [hmo]
  | some h =>
      by_cases hcs : c.createdSub.isSome
      · cases hk : c.hooks with
        | none =>
            simp [hmo, hcs, hk, List.mem_cons]
            tauto
        | some m =>
            simp [hmo, hcs, hk, mem_dispAll_subDisposed, List.mem_cons]
            tauto
      · simp [hmo, hcs, List.mem_cons]
        tauto

/-- The state change of the manager-transfer chain inside `dispose`, lookups
at the receiving instance: it ends with the donor's hook map and fresh
terminal-service subscriptions. -/
theorem transfer_chain_getCtrl_other (s0 : Sys) (i other : Nat) (c oc0 : Controller)
    (hoc0 : getCtrl s0 other = some oc0) (hoi : other ≠ i) :
    getCtrl (updCtrl (unhookEvents (updCtrl (handleTerminals (updCtrl s0 other
        (fun d => { d with hooks := c.hooks })) other) i
        (fun d => { d with hooks := some emptyJsMap })) i) i
        (fun d => { d with alive := false })) other
      = some { oc0 with hooks := c.hooks,
                        createdSub := some s0.nextSub,
                        disposedSub := some (s0.nextSub + 1) } := by
  rw [getCtrl_updCtrl_ne _ i other (fun d => { d with alive := false }) (fun c => rfl)
        (Ne.symm hoi),
      getCtrl_unhookEvents_ne _ i other hoi,
      getCtrl_updCtrl_ne _ i other (fun d => { d with hooks := some emptyJsMap })
        (fun c => rfl) (Ne.symm hoi),
      getCtrl_handleTerminals_self,
      getCtrl_updCtrl_self _ other (fun d => { d with hooks := c.hooks }) (fun c => rfl),
      hoc0]
  rfl

/-- The disposed set after the manager-transfer chain: only the unhooking of
the *donor's* editor mouse-move handler adds anything — the hooks being
transferred are not touched, because the donor's map field was reset to a
fresh empty `Map` before `_unhookEvents` ran. -/
theorem transfer_chain_subDisposed (s0 : Sys) (i other : Nat) (c : Controller)
    (hc0 : getCtrl s0 i = some c) (hoi : other ≠ i) (x : Nat) :
    x ∈ (updCtrl (unhookEvents (updCtrl (handleTerminals (updCtrl s0 other
        (fun d => { d with hooks := c.hooks })) other) i
        (fun d => { d with hooks := some emptyJsMap })) i) i
        (fun d => { d with alive := false })).subDisposed
      ↔ (x ∈ s0.subDisposed ∨ c.mouseSub = some x) := by
  have hc3 : getCtrl (updCtrl (handleTerminals (updCtrl s0 other
      (fun d => { d with hooks := c.hooks })) other) i
      (fun d => { d with hooks := some emptyJsMap })) i
      = some { c with hooks := some emptyJsMap } := by
    rw [getCtrl_updCtrl_self _ i (fun d => { d with hooks := some emptyJsMap })
          (fun c => rfl),
        getCtrl_handleTerminals_ne _ other i hoi,
        getCtrl_updCtrl_ne _ other i (fun d => { d with hooks := c.hooks })
          (fun c => rfl) hoi,
        hc0]
    rfl
  rw [updCtrl_subDisposed, unhookEvents_subDisposed_mem _ i _ hc3 x]
  simp [handleTerminals_subDisposed, emptyJsMap]

/-! ## Bracket assignment and hook installation -/

theorem lookup_setAssoc_self (l : List (Nat × Nat)) (k v : Nat) :
    (setAssoc l k v).lookup k = some v := by
  induction l with
  | nil => simp [setAssoc, List.lookup]
  | cons p l ih =>
      obtain ⟨k', v'⟩ := p
      by_cases hk : k' = k
      · subst hk
        simp [setAssoc, List.lookup]
      · have hb : (k == k') = false := beq_eq_false_iff_ne.mpr (Ne.symm hk)
        simp [setAssoc, hk, List.lookup, hb, ih]

theorem lookup_setAssoc_ne (l : List (Nat × Nat)) (k v k' : Nat) (h : k' ≠ k) :
    (setAssoc l k v).lookup k' = l.lookup k' := by
  have hb : (k' == k) = false := beq_eq_false_iff_ne.mpr h
  induction l with
  | nil => simp [setAssoc, List.lookup, hb]
  | cons p l ih =>
      obtain ⟨ka, va⟩ := p
      by_cases hk : ka = k
      · subst hk
        simp [setAssoc, List.lookup, hb]
      · by_cases hk' : ka = k'
        · subst hk'
          simp [setAssoc, hk, List.lookup]
        · have hb' : (k' == ka) = false := beq_eq_false_iff_ne.mpr (Ne.symm hk')
          simp [setAssoc, hk, List.lookup, hb', ih]

theorem setAssoc_keys_nodup (l : List (Nat × Nat)) (k v : Nat)
    (h : (l.map Prod.fst).Nodup) : ((setAssoc l k v).map Prod.fst).Nodup := by
  induction l with
  | nil => simp [setAssoc]
  | cons p l ih =>
      obtain ⟨ka, va⟩ := p
      simp only [List.map_cons, List.nodup_cons] at h
      by_cases hk : ka = k
      · subst hk
        simpa [setAssoc] using h
      · have hmem : ka ∉ (setAssoc l k v).map Prod.fst := by
          intro hka
          rcases List.mem_map.1 hka with ⟨q, hq, hqa⟩
          have hql : q ∈ l ∨ q = (k, v) := by
            clear ih h hka
            induction l with
            | nil => simp [setAssoc] at hq; tauto
            | cons r l ihl =>
                obtain ⟨ra, rv⟩ := r
                by_cases hr : ra = k
                · simp [setAssoc, hr] at hq
                  rcases hq with hq | hq
                  · exact Or.inr (by simp [hq])
                  · exact Or.inl (List.mem_cons_of_mem _ hq)
                · simp only [setAssoc, hr, if_false, List.mem_cons] at hq
                  rcases hq with hq | hq
                  · exact Or.inl (by simp [hq])
                  · rcases ihl hq with h' | h'
                    · exact Or.inl (List.mem_cons_of_mem _ h')
                    · exact Or.inr h'
          rcases hql with hql | hql
          · exact h.1 (List.mem_map.2 ⟨q, hql, hqa⟩)
          · subst hql
            simp at hqa
            exact hk hqa.symm
        simp only [setAssoc, hk, if_false, List.map_cons, List.nodup_cons]
        exact ⟨hmem, ih h.2⟩

/-- The per-terminal hook loop of `_hookEvents`, specified: after hooking the
terminal list `ts`, the map binds every `t ∈ ts` to some freshly allocated
subscription, other bindings are untouched, key-uniqueness is preserved, and
nothing is disposed or unsubscribed by the loop. -/
theorem hookTerminals_spec (ts : List Nat) (s : Sys) (i : Nat) (c : Controller) (m : JsMap)
    (hc : getCtrl s i = some c) (hm : c.hooks = some m) :
    ∃ m' : JsMap, getCtrl (hookTerminals s i ts) i = some { c with hooks := some m' }
      ∧ (∀ t ∈ ts, ∃ h, m'.props.lookup t = some h ∧ s.nextSub ≤ h
            ∧ h < (hookTerminals s i ts).nextSub)
      ∧ (∀ t, t ∉ ts → m'.props.lookup t = m.props.lookup t)
      ∧ ((m.props.map Prod.fst).Nodup → (m'.props.map Prod.fst).Nodup)
      ∧ m'.entries = m.entries
      ∧ s.nextSub ≤ (hookTerminals s i ts).nextSub
      ∧ (hookTerminals s i ts).subDisposed = s.subDisposed := by
  induction ts generalizing s c m with
  | nil =>
      refine ⟨m, ?_, by simp, fun t _ => rfl, fun h => h, rfl, le_refl _, rfl⟩
      rw [hookTerminals, hc, ← hm]
  | cons t ts ih =>
      rw [hookTerminals]
      have hcid : ∀ d : Controller,
          ((fun (d : Controller) => match d.hooks with
            | some mm => { d with hooks := some { mm with props := setAssoc mm.props t s.nextSub } }
            | none => d) d).cid = d.cid := by
        intro d
        cases hdk : d.hooks <;> simp [hdk]
      have hc2 : getCtrl (updCtrl { s with nextSub := s.nextSub + 1 } i
          (fun (d : Controller) => match d.hooks with
            | some mm => { d with hooks := some { mm with props := setAssoc mm.props t s.nextSub } }
            | none => d)) i
          = some { c with hooks := some { m with props := setAssoc m.props t s.nextSub } } := by
        rw [getCtrl_updCtrl_self _ i
            (fun (d : Controller) => match d.hooks with
              | some mm => { d with hooks := some { mm with props := setAssoc mm.props t s.nextSub } }
              | none => d) hcid]
        have hcn : getCtrl { s with nextSub := s.nextSub + 1 } i = some c := hc
        rw [hcn]
        simp [hm]
      obtain ⟨m', hg, hin, hout, hnd, hent, hmono, hsub⟩ :=
        ih (updCtrl { s with nextSub := s.nextSub + 1 } i
            (fun (d : Controller) => match d.hooks with
              | some mm => { d with hooks := some { mm with props := setAssoc mm.props t s.nextSub } }
              | none => d)) _ _ hc2 rfl
      refine ⟨m', hg, ?_, ?_, ?_, by simpa using hent, ?_, hsub⟩
      · intro t' ht'
        by_cases hmem : t' ∈ ts
        · obtain ⟨h, hl, hge, hlt⟩ := hin t' hmem
          exact ⟨h, hl, le_trans (Nat.le_succ _) hge, hlt⟩
        · have ht : t' = t := by
            rcases List.mem_cons.1 ht' with h | h
            · exact h
            · exact absurd h hmem
          subst ht
          refine ⟨s.nextSub, ?_, le_refl _, ?_⟩
          · rw [hout t' hmem]
            simp [lookup_setAssoc_self]
          · exact Nat.lt_of_lt_of_le (Nat.lt_succ_self _) hmono
      · intro t' ht'
        have h1 : t' ∉ ts := fun h => ht' (List.mem_cons_of_mem _ h)
        have h2 : t' ≠ t := fun h => ht' (h ▸ List.mem_cons_self _ _)
        rw [hout t' h1]
        simp [lookup_setAssoc_ne _ _ _ _ h2]
      · intro hnd0
        exact hnd (by simpa using setAssoc_keys_nodup _ t s.nextSub hnd0)
      · exact le_trans (Nat.le_succ _) hmono

theorem contains_eq_false_of_not_mem {l : List Nat} {a : Nat} (h : a ∉ l) :
    l.contains a = false := by
  simpa using h

/-- A configuration-change event on a controller whose subscription is still
live: set the flag, then `_unhookEvents` and `_hookEvents`. -/
theorem configChange_eq (s : Sys) (i : Nat) (c : Controller) (b : Bool)
    (hc : getCtrl s i = some c) (hlive : c.didChangeSub ∉ s.subDisposed) :
    configChange s i b
      = hookEvents (unhookEvents (updCtrl s i fun d => { d with flag := b }) i) i := by
  simp only [configChange, hc, contains_eq_false_of_not_mem hlive, Bool.false_eq_true,
    if_false]

/-- `_hookEvents` is a no-op when the feature flag is off. -/
theorem hookEvents_of_flag_false (s : Sys) (i : Nat) (c : Controller)
    (hc : getCtrl s i = some c) (hflag : c.flag = false) : hookEvents s i = s := by
  simp [hookEvents, hc, hflag]

/-- `_unhookEvents` is a no-op when there is no editor mouse-move handler. -/
theorem unhookEvents_of_mouseSub_none (s : Sys) (i : Nat) (c : Controller)
    (hc : getCtrl s i = some c) (hmo : c.mouseSub = none) : unhookEvents s i = s := by
  simp [unhookEvents, hc, hmo]

/-- The manager's own record after `_unhookEvents` (handler present, map
present): the mouse-move field is nulled and `Map.clear` empties the entry
list while the properties stay. -/
theorem unhookEvents_getCtrl_self_mgr (s : Sys) (i : Nat) (c : Controller) (m : JsMap)
    (h : Nat) (hc : getCtrl s i = some c) (hmo : c.mouseSub = some h)
    (hmgr : c.createdSub.isSome = true) (hm : c.hooks = some m) :
    getCtrl (unhookEvents s i) i
      = some { c with mouseSub := none,
                      hooks := some { props := m.props, entries := [] } } := by
  simp only [unhookEvents, hc, hmo, hmgr, if_true, hm]
  rw [getCtrl_updCtrl_self _ i
        (fun d => { d with hooks := some { props := m.props, entries := [] } })
        (fun c => rfl),
      getCtrl_dispAll,
      getCtrl_updCtrl_self _ i (fun d => { d with mouseSub := none }) (fun c => rfl)]
  have hcn : getCtrl (dispSub s h) i = some c := hc
  rw [hcn]
  rfl

/-- `_hookEvents` on the terminal manager with the flag on: the editor
mouse-move handler is installed, and every currently open terminal is bound
to a fresh (hence undisposed) hook; other bindings, key-uniqueness and the
disposed set are untouched. -/
theorem hookEvents_spec_mgr (s : Sys) (i : Nat) (c : Controller) (m : JsMap)
    (hc : getCtrl s i = some c) (hflag : c.flag = true)
    (hmgr : c.createdSub.isSome = true) (hm : c.hooks = some m) :
    ∃ m' : JsMap, getCtrl (hookEvents s i) i
        = some { c with mouseSub := some s.nextSub, hooks := some m' }
      ∧ (∀ t ∈ s.terminals, ∃ h, m'.props.lookup t = some h ∧ s.nextSub ≤ h
            ∧ h < (hookEvents s i).nextSub)
      ∧ (∀ t, t ∉ s.terminals → m'.props.lookup t = m.props.lookup t)
      ∧ ((m.props.map Prod.fst).Nodup → (m'.props.map Prod.fst).Nodup)
      ∧ (hookEvents s i).subDisposed = s.subDisposed := by
  simp only [hookEvents, hc, hflag, hmgr, if_true]
  have hc1 : getCtrl (updCtrl { s with nextSub := s.nextSub + 1 } i
      (fun d => { d with mouseSub := some s.nextSub })) i
      = some { c with mouseSub := some s.nextSub } := by
    rw [getCtrl_updCtrl_self _ i (fun d => { d with mouseSub := some s.nextSub })
        (fun c => rfl)]
    have hcn : getCtrl { s with nextSub := s.nextSub + 1 } i = some c := hc
    rw [hcn]
    rfl
  obtain ⟨m', hg, hin, hout, hnd, hent, hmono, hsub⟩ :=
    hookTerminals_spec
      ((updCtrl { s with nextSub := s.nextSub + 1 } i
          (fun d => { d with mouseSub := some s.nextSub })).terminals)
      (updCtrl { s with nextSub := s.nextSub + 1 } i
          (fun d => { d with mouseSub := some s.nextSub })) i
      { c with mouseSub := some s.nextSub } m hc1 hm
  simp only [] at hg
  rw [hflag] at hg
  refine ⟨m', hg, ?_, hout, hnd, hsub⟩
  intro t ht
  obtain ⟨h, hl, hge, hlt⟩ := hin t ht
  exact ⟨h, hl, le_trans (Nat.le_succ _) hge, hlt⟩

/-! ## Observers used to state the claims -/

/-- The property list of controller `i`'s `_terminalHooks` map: the store
that bracket assignment writes and `for..in` reads. -/
def hookPropsOf (s : Sys) (i : Nat) : List (Nat × Nat) :=
  match getCtrl s i with
  | some c => (c.hooks.getD emptyJsMap).props
  | none => []

/-- The internal `Map` entry list of controller `i`'s `_terminalHooks`: the
store that `has`/`delete`/`clear` touch. -/
def hookEntriesOf (s : Sys) (i : Nat) : List (Nat × Nat) :=
  match getCtrl s i with
  | some c => (c.hooks.getD emptyJsMap).entries
  | none => []

/-! ## Claims -/

/-- **C9**: if `dispose` is invoked on a controller that is no longer in the
registry (for example a second `dispose` on the same instance) while the
registry is non-empty, the registry element removed is the last one — the
most recently created live controller — not the instance being disposed:
`indexOf` yields `-1` and `splice(-1, 1)` deletes the final element. -/
theorem C9_dispose_nonmember_removes_last (s : Sys) (i : Nat)
    (hs : (getCtrl s i).isSome) (hnm : i ∉ s.instances) (hne : s.instances ≠ []) :
    (disposeCtrl s i).instances = s.instances.dropLast ∧
    s.instances = s.instances.dropLast ++ [s.instances.getLast hne] := by
  obtain ⟨c, hc⟩ := Option.isSome_iff_exists.1 hs
  constructor
  · rw [disposeCtrl_instances s i c hc, jsSplice_jsIndexOf_of_not_mem hnm]
  · exact (List.dropLast_append_getLast hne).symm

/-- Witness for C9: three controllers are created and the first is disposed
twice; the second `dispose` call removes controller `2` — the most recently
created live one — from the registry, not controller `0`. -/
theorem C9_witness :
    ((getCtrl (runOps init [Op.newCtrl true, Op.newCtrl true, Op.newCtrl true,
        Op.disposeCtrl 0]) 0).isSome
      ∧ 0 ∉ (runOps init [Op.newCtrl true, Op.newCtrl true, Op.newCtrl true,
        Op.disposeCtrl 0]).instances
      ∧ (runOps init [Op.newCtrl true, Op.newCtrl true, Op.newCtrl true,
        Op.disposeCtrl 0]).instances = [1, 2])
    ∧ (disposeCtrl (runOps init [Op.newCtrl true, Op.newCtrl true, Op.newCtrl true,
        Op.disposeCtrl 0]) 0).instances = [1] :=
  ⟨⟨by decide, by decide, by decide⟩,
    (C9_dispose_nonmember_removes_last _ 0 (by decide) (by decide) (by decide)).1.trans
      (by decide)⟩

/-- **C3** is a code bug, witnessed here by evaluation: one controller (flag
on) is the terminal manager, terminal `1` opens (hook subscription `4` is
stored by bracket assignment), and the controller is disposed as the last
live one.  The remaining hook `4` *is* disposed, but the mapping is not left
empty: `Map.clear` empties only the internal entry list, which bracket
assignment never populated, so the property for terminal `1` survives. -/
theorem C3_last_dispose_leaves_disposed_property :
    hookPropsOf (runOps init [Op.newCtrl true, Op.termOpen 1, Op.disposeCtrl 0]) 0 = [(1, 4)]
    ∧ 4 ∈ (runOps init [Op.newCtrl true, Op.termOpen 1, Op.disposeCtrl 0]).subDisposed
    ∧ hookEntriesOf (runOps init [Op.newCtrl true, Op.termOpen 1, Op.disposeCtrl 0]) 0 = [] := by
  decide

/-- **C4** is a code bug, witnessed here by evaluation: the manager (flag on)
stored hook `4` for terminal `1` on creation (bracket assignment), but the
instance-disposed callback checks `Map.has`, which consults the internal
entry list that was never populated — so after terminal `1` is disposed the
hook is neither disposed nor removed from the mapping. -/
theorem C4_terminal_disposed_callback_is_noop :
    hookPropsOf (runOps init [Op.newCtrl true, Op.termOpen 1, Op.termClose 1]) 0 = [(1, 4)]
    ∧ 4 ∉ (runOps init [Op.newCtrl true, Op.termOpen 1, Op.termClose 1]).subDisposed
    ∧ hookEntriesOf (runOps init [Op.newCtrl true, Op.termOpen 1, Op.termClose 1]) 0 = [] := by
  decide

/-- **C6** is a code bug, witnessed here by evaluation: `_unhookEvents` runs
on the manager (flag toggled off) with a hook stored for terminal `1`; every
per-terminal hook *is* disposed and the manager keeps its terminal-created
and terminal-disposed subscriptions (`1` and `2`, both undisposed), but the
hook mapping is not cleared: `Map.clear` empties only the internal entry
list and the bracket-assigned property for terminal `1` survives. -/
theorem C6_unhook_disposes_but_does_not_clear :
    hookPropsOf (runOps init [Op.newCtrl true, Op.termOpen 1, Op.configChange 0 false]) 0 = [(1, 4)]
    ∧ 4 ∈ (runOps init [Op.newCtrl true, Op.termOpen 1, Op.configChange 0 false]).subDisposed
    ∧ (getCtrl (runOps init [Op.newCtrl true, Op.termOpen 1, Op.configChange 0 false]) 0).map
        (fun c => (c.createdSub, c.disposedSub)) = some (some 1, some 2)
    ∧ 1 ∉ (runOps init [Op.newCtrl true, Op.termOpen 1, Op.configChange 0 false]).subDisposed
    ∧ 2 ∉ (runOps init [Op.newCtrl true, Op.termOpen 1, Op.configChange 0 false]).subDisposed := by
  decide

/-- **C2**: when `dispose` runs on the terminal-manager controller while at
least one other live controller exists, the entire terminal-hook mapping —
the very same map value, hence the same set of terminal identifiers with no
hook lost or duplicated — is transferred to the first registry entry in
order, which also receives fresh terminal-service subscriptions; the
transferred hook subscriptions all keep their exact disposal status (none is
disposed by the handoff), while the disposing controller's own editor
mouse-move subscription *is* disposed — it is unhooked only after the
handoff, so the unhooking hits the donor's freshly reset empty map rather
than the transferred hooks. -/
theorem C2_manager_dispose_transfers_hooks
    (s : Sys) (i other cs ds : Nat) (c oc0 : Controller) (m : JsMap)
    (hc : getCtrl s i = some c)
    (hcs : c.createdSub = some cs)
    (hds : c.disposedSub = some ds)
    (hm : c.hooks = some m)
    (hmem : i ∈ s.instances)
    (hnd : s.instances.Nodup)
    (hother : (s.instances.erase i).head? = some other)
    (hoc : getCtrl s other = some oc0)
    (hdisj : ∀ hk ∈ m.props.map Prod.snd,
        hk ≠ c.didChangeSub ∧ hk ≠ cs ∧ hk ≠ ds ∧ c.mouseSub ≠ some hk) :
    (∃ oc, getCtrl (disposeCtrl s i) other = some oc
        ∧ oc.hooks = some m ∧ oc.createdSub.isSome ∧ oc.disposedSub.isSome)
    ∧ (∀ hk ∈ m.props.map Prod.snd,
        (hk ∈ (disposeCtrl s i).subDisposed ↔ hk ∈ s.subDisposed))
    ∧ (∀ mh, c.mouseSub = some mh → mh ∈ (disposeCtrl s i).subDisposed)
    ∧ (disposeCtrl s i).instances = s.instances.erase i := by
  have hbody : disposeCtrl s i = disposeCtrlBody s i c := by rw [disposeCtrl, hc]
  have herase : jsSpliceRemove1 s.instances (jsIndexOf s.instances i)
      = s.instances.erase i := jsSplice_jsIndexOf_of_mem s.instances i hmem
  have hne : s.instances.erase i ≠ [] := by
    intro h; rw [h] at hother; cases hother
  have hpos : 0 < (s.instances.erase i).length := List.length_pos.mpr hne
  have homem : other ∈ s.instances.erase i :=
    List.mem_of_mem_head? (by rw [hother]; rfl)
  have hoi : other ≠ i := by
    intro h
    subst h
    exact (List.Nodup.not_mem_erase hnd) homem
  have hstep : disposeCtrlBody s i c
      = updCtrl (unhookEvents (updCtrl (handleTerminals (updCtrl
          (dispSub (dispSub { s with instances := s.instances.erase i,
                                     subDisposed := c.didChangeSub :: s.subDisposed } cs) ds)
          other (fun d => { d with hooks := c.hooks })) other) i
          (fun d => { d with hooks := some emptyJsMap })) i) i
          (fun d => { d with alive := false }) := by
    simp only [disposeCtrlBody, disposeMgrPart, hcs, hds, dispSub_instances,
      dispSub_subDisposed, dispSub_ctrls, dispSub_terminals, dispSub_nextSub,
      dispSub_createdListeners, dispSub_disposedListeners, dispSub_nextCid, herase]
    rw [if_pos hpos]
    simp only [hother]
  have hc0 : getCtrl (dispSub (dispSub
      { s with instances := s.instances.erase i,
               subDisposed := c.didChangeSub :: s.subDisposed } cs) ds) i = some c := hc
  have hoc0 : getCtrl (dispSub (dispSub
      { s with instances := s.instances.erase i,
               subDisposed := c.didChangeSub :: s.subDisposed } cs) ds) other = some oc0 := hoc
  refine ⟨?_, ?_, ?_, ?_⟩
  · rw [hbody, hstep, transfer_chain_getCtrl_other _ i other c oc0 hoc0 hoi]
    exact ⟨_, rfl, hm, rfl, rfl⟩
  · intro hk hkmem
    obtain ⟨h1, h2, h3, h4⟩ := hdisj hk hkmem
    rw [hbody, hstep, transfer_chain_subDisposed _ i other c hc0 hoi hk]
    simp only [dispSub_subDisposed, List.mem_cons]
    constructor
    · rintro ((rfl | rfl | rfl | hx) | hmo)
      · exact absurd rfl h3
      · exact absurd rfl h2
      · exact absurd rfl h1
      · exact hx
      · exact absurd hmo h4
    · intro hx
      exact Or.inl (Or.inr (Or.inr (Or.inr hx)))
  · intro mh hmo
    rw [hbody, hstep]
    exact (transfer_chain_subDisposed _ i other c hc0 hoi mh).mpr (Or.inr hmo)
  · rw [hbody, disposeCtrlBody_instances s i c, herase]

/-- Witness for C2: the manager (id `0`, flag on, hook `4` for terminal `1`)
is disposed while controller `1` is still live; hook `4` keeps its disposal
status (undisposed), the donor's mouse handler `3` is disposed, and the
registry shrinks by exactly the donor. -/
theorem C2_witness :
    (getCtrl (runOps init [Op.newCtrl true, Op.termOpen 1, Op.newCtrl false]) 0
        = some (⟨0, true, true, 0, some 3, some ⟨[(1, 4)], []⟩, some 1, some 2⟩ : Controller)
      ∧ 0 ∈ (runOps init [Op.newCtrl true, Op.termOpen 1, Op.newCtrl false]).instances)
    ∧ (4 ∈ (disposeCtrl (runOps init [Op.newCtrl true, Op.termOpen 1, Op.newCtrl false]) 0).subDisposed
        ↔ 4 ∈ (runOps init [Op.newCtrl true, Op.termOpen 1, Op.newCtrl false]).subDisposed)
    ∧ 3 ∈ (disposeCtrl (runOps init [Op.newCtrl true, Op.termOpen 1, Op.newCtrl false]) 0).subDisposed
    ∧ (disposeCtrl (runOps init [Op.newCtrl true, Op.termOpen 1, Op.newCtrl false]) 0).instances
        = (runOps init [Op.newCtrl true, Op.termOpen 1, Op.newCtrl false]).instances.erase 0 :=
  ⟨⟨by decide, by decide⟩,
    (C2_manager_dispose_transfers_hooks
      (runOps init [Op.newCtrl true, Op.termOpen 1, Op.newCtrl false]) 0 1 1 2
      (⟨0, true, true, 0, some 3, some ⟨[(1, 4)], []⟩, some 1, some 2⟩ : Controller)
      (⟨1, false, true, 5, none, none, none, none⟩ : Controller)
      (⟨[(1, 4)], []⟩ : JsMap)
      (by decide) (by decide) (by decide) (by decide) (by decide) (by decide)
      (by decide) (by decide) (by decide)).2.1 4 (by decide),
    (C2_manager_dispose_transfers_hooks
      (runOps init [Op.newCtrl true, Op.termOpen 1, Op.newCtrl false]) 0 1 1 2
      (⟨0, true, true, 0, some 3, some ⟨[(1, 4)], []⟩, some 1, some 2⟩ : Controller)
      (⟨1, false, true, 5, none, none, none, none⟩ : Controller)
      (⟨[(1, 4)], []⟩ : JsMap)
      (by decide) (by decide) (by decide) (by decide) (by decide) (by decide)
      (by decide) (by decide) (by decide)).2.2.1 3 (by decide),
    (C2_manager_dispose_transfers_hooks
      (runOps init [Op.newCtrl true, Op.termOpen 1, Op.newCtrl false]) 0 1 1 2
      (⟨0, true, true, 0, some 3, some ⟨[(1, 4)], []⟩, some 1, some 2⟩ : Controller)
      (⟨1, false, true, 5, none, none, none, none⟩ : Controller)
      (⟨[(1, 4)], []⟩ : JsMap)
      (by decide) (by decide) (by decide) (by decide) (by decide) (by decide)
      (by decide) (by decide) (by decide)).2.2.2⟩

/-- **C10**: disposing a controller that does not hold the terminal-manager
role leaves every other controller's record — in particular the manager's
hook mapping, terminal subscriptions and role assignment — exactly as before,
leaves the terminal service's listener lists unchanged, and disposes exactly
the disposed controller's own configuration-change subscription and (if
present) its editor mouse-move subscription. -/
theorem disposeCtrlBody_subDisposed_nonmgr (s : Sys) (i : Nat) (c : Controller)
    (hc : getCtrl s i = some c) (hnm : c.createdSub = none) :
    (disposeCtrlBody s i c).subDisposed
      = match c.mouseSub with
        | none => c.didChangeSub :: s.subDisposed
        | some h => h :: c.didChangeSub :: s.subDisposed := by
  simp only [disposeCtrlBody, disposeMgrPart, hnm, updCtrl_subDisposed]
  exact unhookEvents_subDisposed_nonmgr _ i c hc hnm

theorem C10_dispose_nonmanager_frame (s : Sys) (i : Nat) (c : Controller)
    (hc : getCtrl s i = some c) (hnm : c.createdSub = none) :
    (∀ j, j ≠ i → getCtrl (disposeCtrl s i) j = getCtrl s j) ∧
    (∀ x : Nat, x ∈ (disposeCtrl s i).subDisposed ↔
        (x ∈ s.subDisposed ∨ x = c.didChangeSub ∨ c.mouseSub = some x)) ∧
    (disposeCtrl s i).createdListeners = s.createdListeners ∧
    (disposeCtrl s i).disposedListeners = s.disposedListeners := by
  have hbody : disposeCtrl s i = disposeCtrlBody s i c := by rw [disposeCtrl, hc]
  refine ⟨?_, ?_, ?_, ?_⟩
  · intro j hj
    rw [hbody]
    simp only [disposeCtrlBody, disposeMgrPart, hnm]
    rw [getCtrl_updCtrl_ne _ i j (fun d => { d with alive := false }) (fun c => rfl)
          (Ne.symm hj),
        getCtrl_unhookEvents_ne _ i j hj]
    rfl
  · intro x
    rw [hbody, disposeCtrlBody_subDisposed_nonmgr s i c hc hnm]
    cases hm : c.mouseSub with
    | none => simp [hm, List.mem_cons]; tauto
    | some h =>
        simp only [hm, List.mem_cons, Option.some.injEq]
        constructor
        · rintro (rfl | rfl | hx) <;> tauto
        · rintro (hx | rfl | rfl) <;> tauto
  · rw [hbody]
    simp only [disposeCtrlBody, disposeMgrPart, hnm]
    rw [updCtrl_createdListeners, unhookEvents_createdListeners]
    rfl
  · rw [hbody]
    simp only [disposeCtrlBody, disposeMgrPart, hnm]
    rw [updCtrl_disposedListeners, unhookEvents_disposedListeners]
    rfl

/-- Witness for C10: two controllers; the second (id `1`, not the manager)
is disposed; controller `0` — the manager — is untouched, the listeners are
unchanged, and exactly subscriptions `4` (config handler) and `5` (editor
mouse-move) of controller `1` are disposed. -/
theorem C10_witness :
    (getCtrl (runOps init [Op.newCtrl true, Op.newCtrl true]) 1
        = some (⟨1, true, true, 4, some 5, none, none, none⟩ : Controller)
      ∧ (Controller.createdSub (⟨1, true, true, 4, some 5, none, none, none⟩ : Controller)) = none)
    ∧ getCtrl (disposeCtrl (runOps init [Op.newCtrl true, Op.newCtrl true]) 1) 0
        = getCtrl (runOps init [Op.newCtrl true, Op.newCtrl true]) 0
    ∧ (5 ∈ (disposeCtrl (runOps init [Op.newCtrl true, Op.newCtrl true]) 1).subDisposed ↔
        (5 ∈ (runOps init [Op.newCtrl true, Op.newCtrl true]).subDisposed
          ∨ 5 = Controller.didChangeSub (⟨1, true, true, 4, some 5, none, none, none⟩ : Controller)
          ∨ Controller.mouseSub (⟨1, true, true, 4, some 5, none, none, none⟩ : Controller) = some 5))
    ∧ (disposeCtrl (runOps init [Op.newCtrl true, Op.newCtrl true]) 1).createdListeners
        = (runOps init [Op.newCtrl true, Op.newCtrl true]).createdListeners :=
  ⟨⟨by decide, by decide⟩,
    (C10_dispose_nonmanager_frame (runOps init [Op.newCtrl true, Op.newCtrl true]) 1
      (⟨1, true, true, 4, some 5, none, none, none⟩ : Controller)
      (by decide) (by decide)).1 0 (by decide),
    (C10_dispose_nonmanager_frame (runOps init [Op.newCtrl true, Op.newCtrl true]) 1
      (⟨1, true, true, 4, some 5, none, none, none⟩ : Controller)
      (by decide) (by decide)).2.1 5,
    (C10_dispose_nonmanager_frame (runOps init [Op.newCtrl true, Op.newCtrl true]) 1
      (⟨1, true, true, 4, some 5, none, none, none⟩ : Controller)
      (by decide) (by decide)).2.2.1⟩

/-- **C7**: (a) a terminal-created event received while the manager's editor
flag is off adds no hook — the callback leaves the state untouched; (b) with
the flag on, the callback binds the terminal to a fresh, undisposed
mouse-move-to-focus hook; (c) a terminal already open when the flag is
toggled on gets its hook through the re-hook path (`_hookEvents` inside the
configuration-change handler), with no terminal-created event involved. -/
theorem C7_terminal_created_respects_flag (s : Sys) (i t : Nat) (c : Controller)
    (hc : getCtrl s i = some c) :
    (c.flag = false → onTerminalCreated s i t = s)
    ∧ (∀ m : JsMap, c.flag = true → c.hooks = some m →
        (∀ x ∈ s.subDisposed, x < s.nextSub) →
        (getCtrl (onTerminalCreated s i t) i).map Controller.hooks
            = some (some { m with props := setAssoc m.props t s.nextSub })
          ∧ (setAssoc m.props t s.nextSub).lookup t = some s.nextSub
          ∧ s.nextSub ∉ (onTerminalCreated s i t).subDisposed)
    ∧ (∀ m : JsMap, c.flag = false → c.mouseSub = none → c.createdSub.isSome = true →
        c.hooks = some m → c.didChangeSub ∉ s.subDisposed →
        (∀ x ∈ s.subDisposed, x < s.nextSub) → t ∈ s.terminals →
        ∃ h, (hookPropsOf (configChange s i true) i).lookup t = some h
          ∧ h ∉ (configChange s i true).subDisposed) := by
  refine ⟨?_, ?_, ?_⟩
  · intro hflag
    simp [onTerminalCreated, hc, hflag]
  · intro m hflag hm hbound
    simp only [onTerminalCreated, hc, hflag, if_true, hm]
    refine ⟨?_, lookup_setAssoc_self m.props t s.nextSub, ?_⟩
    · rw [getCtrl_updCtrl_self _ i
          (fun d => { d with hooks := some { m with props := setAssoc m.props t s.nextSub } })
          (fun c => rfl)]
      have hcn : getCtrl { s with nextSub := s.nextSub + 1 } i = some c := hc
      rw [hcn]
      rfl
    · intro hmem
      exact absurd (hbound _ hmem) (lt_irrefl _)
  · intro m hflag hmo hmgr hm hdc hbound ht
    rw [configChange_eq s i c true hc hdc]
    have hcT : getCtrl (updCtrl s i fun d => { d with flag := true }) i
        = some { c with flag := true } := by
      rw [getCtrl_updCtrl_self _ i (fun d => { d with flag := true }) (fun c => rfl), hc]
      rfl
    rw [unhookEvents_of_mouseSub_none _ i { c with flag := true } hcT hmo]
    obtain ⟨m2, hg, hin, hout, hnd, hsub⟩ :=
      hookEvents_spec_mgr (updCtrl s i fun d => { d with flag := true }) i
        { c with flag := true } m hcT rfl hmgr hm
    obtain ⟨h, hl, hge, hlt⟩ := hin t ht
    refine ⟨h, ?_, ?_⟩
    · simp only [hookPropsOf, hg]
      exact hl
    · rw [hsub, updCtrl_subDisposed]
      intro hmem
      have h1 := hbound h hmem
      rw [updCtrl_nextSub] at hge
      omega

/-- Witness for C7: part (a) at a flag-off manager (terminal `9` gets no
hook), part (b) at a flag-on manager (terminal `1` gets the fresh hook `4`),
and the concrete re-hook fact of part (c): terminal `7`, opened while the
flag was off (no hook), is bound to the fresh active hook `4` by the
flag-on configuration change. -/
theorem C7_witness :
    (getCtrl (runOps init [Op.newCtrl false, Op.termOpen 7]) 0
        = some (⟨0, false, true, 0, none, some ⟨[], []⟩, some 1, some 2⟩ : Controller)
      ∧ getCtrl (runOps init [Op.newCtrl true]) 0
        = some (⟨0, true, true, 0, some 3, some ⟨[], []⟩, some 1, some 2⟩ : Controller))
    ∧ onTerminalCreated (runOps init [Op.newCtrl false, Op.termOpen 7]) 0 9
        = runOps init [Op.newCtrl false, Op.termOpen 7]
    ∧ (getCtrl (onTerminalCreated (runOps init [Op.newCtrl true]) 0 1) 0).map Controller.hooks
        = some (some ⟨[(1, 4)], []⟩)
    ∧ (hookPropsOf (configChange (runOps init [Op.newCtrl false, Op.termOpen 7]) 0 true) 0).lookup 7
        = some 4
    ∧ 4 ∉ (configChange (runOps init [Op.newCtrl false, Op.termOpen 7]) 0 true).subDisposed :=
  ⟨⟨by decide, by decide⟩,
    (C7_terminal_created_respects_flag (runOps init [Op.newCtrl false, Op.termOpen 7]) 0 9
      (⟨0, false, true, 0, none, some ⟨[], []⟩, some 1, some 2⟩ : Controller)
      (by decide)).1 (by decide),
    ((C7_terminal_created_respects_flag (runOps init [Op.newCtrl true]) 0 1
      (⟨0, true, true, 0, some 3, some ⟨[], []⟩, some 1, some 2⟩ : Controller)
      (by decide)).2.1 (⟨[], []⟩ : JsMap) (by decide) (by decide) (by decide)).1,
    by decide, by decide⟩

/-- **C5**: on the terminal manager, a configuration-change event with the
flag off disposes the editor mouse-move hook and clears the field, and
disposes every per-terminal hook; a second configuration-change event with
the flag back on re-installs the editor mouse-move hook and binds every
terminal open at that moment to exactly one fresh, active per-terminal hook
(key-uniqueness of the mapping is preserved). -/
theorem C5_toggle_off_then_on (s : Sys) (i : Nat) (c : Controller) (m : JsMap) (mh : Nat)
    (hc : getCtrl s i = some c)
    (hmgr : c.createdSub.isSome = true)
    (hm : c.hooks = some m)
    (hmo : c.mouseSub = some mh)
    (hdc : c.didChangeSub ∉ s.subDisposed)
    (hdmh : c.didChangeSub ≠ mh)
    (hdp : ∀ p ∈ m.props, c.didChangeSub ≠ p.2)
    (hbound : ∀ x ∈ s.subDisposed, x < s.nextSub)
    (hmb : mh < s.nextSub)
    (hpb : ∀ p ∈ m.props, p.2 < s.nextSub) :
    mh ∈ (configChange s i false).subDisposed
    ∧ (∀ p ∈ m.props, p.2 ∈ (configChange s i false).subDisposed)
    ∧ (getCtrl (configChange s i false) i).map Controller.mouseSub = some none
    ∧ ∃ m2 : JsMap,
        (getCtrl (configChange (configChange s i false) i true) i).map
            (fun d => d.mouseSub.isSome) = some true
        ∧ (getCtrl (configChange (configChange s i false) i true) i).map Controller.hooks
            = some (some m2)
        ∧ (∀ t ∈ s.terminals, ∃ h, m2.props.lookup t = some h
            ∧ h ∉ (configChange (configChange s i false) i true).subDisposed)
        ∧ ((m.props.map Prod.fst).Nodup → (m2.props.map Prod.fst).Nodup) := by
  have hcF : getCtrl (updCtrl s i fun d => { d with flag := false }) i
      = some { c with flag := false } := by
    rw [getCtrl_updCtrl_self _ i (fun d => { d with flag := false }) (fun c => rfl), hc]
    rfl
  have hU : getCtrl (unhookEvents (updCtrl s i fun d => { d with flag := false }) i) i
      = some { c with flag := false, mouseSub := none,
                      hooks := some { props := m.props, entries := [] } } :=
    unhookEvents_getCtrl_self_mgr _ i { c with flag := false } m mh hcF hmo hmgr hm
  have hstep1 : configChange s i false
      = unhookEvents (updCtrl s i fun d => { d with flag := false }) i := by
    rw [configChange_eq s i c false hc hdc,
        hookEvents_of_flag_false _ i _ hU rfl]
  have hmemU : ∀ x : Nat,
      x ∈ (unhookEvents (updCtrl s i fun d => { d with flag := false }) i).subDisposed ↔
        (x ∈ s.subDisposed ∨ c.mouseSub = some x
          ∨ (c.mouseSub.isSome ∧ c.createdSub.isSome
              ∧ ∃ mm, c.hooks = some mm ∧ x ∈ mm.props.map Prod.snd)) := fun x =>
    unhookEvents_subDisposed_mem _ i { c with flag := false } hcF x
  refine ⟨?_, ?_, ?_, ?_⟩
  · rw [hstep1]
    exact (hmemU mh).mpr (Or.inr (Or.inl hmo))
  · intro p hp
    rw [hstep1]
    exact (hmemU p.2).mpr (Or.inr (Or.inr
      ⟨by simp [hmo], hmgr, m, hm, List.mem_map.2 ⟨p, hp, rfl⟩⟩))
  · rw [hstep1, hU]
    rfl
  · have hdc2 : c.didChangeSub ∉
        (unhookEvents (updCtrl s i fun d => { d with flag := false }) i).subDisposed := by
      rw [hmemU c.didChangeSub]
      rintro (hx | hx | ⟨-, -, mm, hmm, hx⟩)
      · exact hdc hx
      · rw [hmo] at hx
        exact hdmh (Option.some.inj hx).symm
      · rw [hm] at hmm
        cases hmm
        rcases List.mem_map.1 hx with ⟨p, hp, hpe⟩
        exact hdp p hp hpe.symm
    have hcT : getCtrl (updCtrl
        (unhookEvents (updCtrl s i fun d => { d with flag := false }) i) i
        fun d => { d with flag := true }) i
        = some { c with flag := true, mouseSub := none,
                        hooks := some { props := m.props, entries := [] } } := by
      rw [getCtrl_updCtrl_self _ i (fun d => { d with flag := true }) (fun c => rfl), hU]
      rfl
    have hstep2 : configChange (configChange s i false) i true
        = hookEvents (updCtrl
            (unhookEvents (updCtrl s i fun d => { d with flag := false }) i) i
            fun d => { d with flag := true }) i := by
      rw [hstep1, configChange_eq _ i _ true hU hdc2,
          unhookEvents_of_mouseSub_none _ i _ hcT rfl]
    obtain ⟨m2, hg, hin, hout, hnd, hsub⟩ :=
      hookEvents_spec_mgr _ i
        { c with flag := true, mouseSub := none,
                 hooks := some { props := m.props, entries := [] } }
        { props := m.props, entries := [] } hcT rfl hmgr rfl
    have hterm : (updCtrl
        (unhookEvents (updCtrl s i fun d => { d with flag := false }) i) i
        fun d => { d with flag := true }).terminals = s.terminals := by
      rw [updCtrl_terminals, unhookEvents_terminals, updCtrl_terminals]
    have hnext : (updCtrl
        (unhookEvents (updCtrl s i fun d => { d with flag := false }) i) i
        fun d => { d with flag := true }).nextSub = s.nextSub := by
      rw [updCtrl_nextSub, unhookEvents_nextSub, updCtrl_nextSub]
    refine ⟨m2, ?_, ?_, ?_, fun h => hnd h⟩
    · rw [hstep2, hg]
      rfl
    · rw [hstep2, hg]
      rfl
    · intro t ht
      obtain ⟨h, hl, hge, hlt⟩ := hin t (by rw [hterm]; exact ht)
      refine ⟨h, hl, ?_⟩
      rw [hstep2, hsub, updCtrl_subDisposed]
      rw [hnext] at hge
      intro hmem
      rcases (hmemU h).1 hmem with hx | hx | ⟨-, -, mm, hmm, hx⟩
      · exact absurd (hbound h hx) (by omega)
      · rw [hmo] at hx
        have : mh = h := Option.some.inj hx
        omega
      · rw [hm] at hmm
        cases hmm
        rcases List.mem_map.1 hx with ⟨p, hp, hpe⟩
        have := hpb p hp
        omega

/-- Witness for C5: the manager (flag on, mouse hook `3`, hook `4` for
terminal `1`) sees the flag toggled off then on; `3` and `4` are disposed by
the off-toggle and the on-toggle rebinds terminal `1` to the fresh active
hook `6`. -/
theorem C5_witness :
    (getCtrl (runOps init [Op.newCtrl true, Op.termOpen 1]) 0
        = some (⟨0, true, true, 0, some 3, some ⟨[(1, 4)], []⟩, some 1, some 2⟩ : Controller))
    ∧ 3 ∈ (configChange (runOps init [Op.newCtrl true, Op.termOpen 1]) 0 false).subDisposed
    ∧ 4 ∈ (configChange (runOps init [Op.newCtrl true, Op.termOpen 1]) 0 false).subDisposed
    ∧ (getCtrl (configChange (runOps init [Op.newCtrl true, Op.termOpen 1]) 0 false) 0).map
        Controller.mouseSub = some none
    ∧ (hookPropsOf (configChange (configChange
        (runOps init [Op.newCtrl true, Op.termOpen 1]) 0 false) 0 true) 0).lookup 1 = some 6
    ∧ 6 ∉ (configChange (configChange
        (runOps init [Op.newCtrl true, Op.termOpen 1]) 0 false) 0 true).subDisposed :=
  ⟨by decide,
    (C5_toggle_off_then_on (runOps init [Op.newCtrl true, Op.termOpen 1]) 0
      (⟨0, true, true, 0, some 3, some ⟨[(1, 4)], []⟩, some 1, some 2⟩ : Controller)
      (⟨[(1, 4)], []⟩ : JsMap) 3
      (by decide) (by decide) (by decide) (by decide) (by decide) (by decide)
      (by decide) (by decide) (by decide) (by decide)).1,
    (C5_toggle_off_then_on (runOps init [Op.newCtrl true, Op.termOpen 1]) 0
      (⟨0, true, true, 0, some 3, some ⟨[(1, 4)], []⟩, some 1, some 2⟩ : Controller)
      (⟨[(1, 4)], []⟩ : JsMap) 3
      (by decide) (by decide) (by decide) (by decide) (by decide) (by decide)
      (by decide) (by decide) (by decide) (by decide)).2.1 (1, 4) (by decide),
    (C5_toggle_off_then_on (runOps init [Op.newCtrl true, Op.termOpen 1]) 0
      (⟨0, true, true, 0, some 3, some ⟨[(1, 4)], []⟩, some 1, some 2⟩ : Controller)
      (⟨[(1, 4)], []⟩ : JsMap) 3
      (by decide) (by decide) (by decide) (by decide) (by decide) (by decide)
      (by decide) (by decide) (by decide) (by decide)).2.2.1,
    by decide, by decide⟩

/-! ## The registry/manager invariant

`skel` projects a controller record to the data the registry invariant talks
about: identity, liveness, and whether it holds the terminal-manager role
(`_manageTerminals`, i.e. the created-handler field is set). -/

def skel (c : Controller) : Nat × Bool × Bool := (c.cid, c.alive, c.createdSub.isSome)

/-- Effect of `dispose`'s final ghost write on a skeleton: the `i`-entry goes
dead. -/
def aliveG (i : Nat) (p : Nat × Bool × Bool) : Nat × Bool × Bool :=
  if p.1 = i then (p.1, false, p.2.2) else p

/-- Effect of `_handleTerminals` on a skeleton: the `j`-entry takes the
manager role. -/
def roleG (j : Nat) (p : Nat × Bool × Bool) : Nat × Bool × Bool :=
  if p.1 = j then (p.1, p.2.1, true) else p

/-- The registry/manager invariant over the skeleton data: the registry is a
subsequence of the creation order, it holds exactly the live controllers,
ids are unique and below the allocation counter, and a live controller holds
the terminal-manager role exactly when it is the registry head. -/
structure INVd (inst : List Nat) (ncid : Nat) (sk : List (Nat × Bool × Bool)) : Prop where
  sub : inst.Sublist (sk.map (·.1))
  mem : ∀ p ∈ sk, (p.2.1 = true ↔ p.1 ∈ inst)
  nd : (sk.map (·.1)).Nodup
  lt : ∀ p ∈ sk, p.1 < ncid
  role : ∀ p ∈ sk, p.2.1 = true → (p.2.2 = true ↔ inst.head? = some p.1)

def INV (s : Sys) : Prop := INVd s.instances s.nextCid (s.ctrls.map skel)

theorem map_skel_updFn (l : List Controller) (i : Nat) (f : Controller → Controller)
    (g : Nat × Bool × Bool → Nat × Bool × Bool)
    (h1 : ∀ c : Controller, c.cid = i → skel (f c) = g (skel c))
    (h2 : ∀ c : Controller, c.cid ≠ i → skel c = g (skel c)) :
    ((l.map fun c => if c.cid = i then f c else c).map skel) = (l.map skel).map g := by
  rw [List.map_map, List.map_map]
  refine List.map_congr_left fun c _ => ?_
  by_cases hci : c.cid = i
  · simpa [hci] using h1 c hci
  · simpa [hci] using h2 c hci

theorem skel_map_updCtrl_id (s : Sys) (i : Nat) (f : Controller → Controller)
    (hf : ∀ c, skel (f c) = skel c) :
    (updCtrl s i f).ctrls.map skel = s.ctrls.map skel := by
  unfold updCtrl
  have := map_skel_updFn s.ctrls i f id (fun c _ => by simpa using hf c) (fun c _ => rfl)
  simpa using this

theorem skel_map_updCtrl_alive (s : Sys) (i : Nat) :
    (updCtrl s i fun d => { d with alive := false }).ctrls.map skel
      = (s.ctrls.map skel).map (aliveG i) := by
  unfold updCtrl
  exact map_skel_updFn s.ctrls i _ (aliveG i)
    (fun c hci => by simp [skel, aliveG, hci])
    (fun c hci => by simp [skel, aliveG, hci])

theorem skel_map_handleTerminals (s : Sys) (j : Nat) :
    (handleTerminals s j).ctrls.map skel = (s.ctrls.map skel).map (roleG j) := by
  unfold handleTerminals updCtrl
  exact map_skel_updFn s.ctrls j _ (roleG j)
    (fun c hci => by simp [skel, roleG, hci])
    (fun c hci => by simp [skel, roleG, hci])

theorem skel_map_hookTerminals (ts : List Nat) (s : Sys) (i : Nat) :
    (hookTerminals s i ts).ctrls.map skel = s.ctrls.map skel := by
  induction ts generalizing s with
  | nil => rfl
  | cons t ts ih =>
      rw [hookTerminals, ih]
      have : ∀ c : Controller, skel ((fun (d : Controller) =>
          match d.hooks with
          | some mm => { d with hooks := some { mm with props := setAssoc mm.props t s.nextSub } }
          | none => d) c) = skel c := by
        intro c
        cases hdk : c.hooks <;> simp [hdk, skel]
      exact skel_map_updCtrl_id _ i _ this

theorem skel_map_hookEvents (s : Sys) (i : Nat) :
    (hookEvents s i).ctrls.map skel = s.ctrls.map skel := by
  unfold hookEvents
  split
  · rfl
  · split
    · split
      · rw [skel_map_hookTerminals]
        exact skel_map_updCtrl_id _ i _ (fun c => by simp [skel])
      · exact skel_map_updCtrl_id _ i _ (fun c => by simp [skel])
    · rfl

theorem skel_map_unhookEvents (s : Sys) (i : Nat) :
    (unhookEvents s i).ctrls.map skel = s.ctrls.map skel := by
  unfold unhookEvents
  split
  · rfl
  · split
    · rfl
    · split
      · split
        · exact skel_map_updCtrl_id _ i _ (fun c => by simp [skel])
        · rw [skel_map_updCtrl_id _ i _ (fun c => by simp [skel])]
          unfold getCtrl at *
          rw [show (dispAll (updCtrl (dispSub s _) i fun d => { d with mouseSub := none })
                _).ctrls = _ from dispAll_ctrls _ _]
          exact skel_map_updCtrl_id _ i _ (fun c => by simp [skel])
      · exact skel_map_updCtrl_id _ i _ (fun c => by simp [skel])

theorem skel_map_onTerminalCreated (s : Sys) (i t : Nat) :
    (onTerminalCreated s i t).ctrls.map skel = s.ctrls.map skel := by
  unfold onTerminalCreated
  split
  · rfl
  · split
    · split
      · rfl
      · exact skel_map_updCtrl_id _ i _ (fun c => by simp [skel])
    · rfl

theorem skel_map_onTerminalDisposed (s : Sys) (i t : Nat) :
    (onTerminalDisposed s i t).ctrls.map skel = s.ctrls.map skel := by
  unfold onTerminalDisposed
  split
  · rfl
  · split
    · rfl
    · split
      · split <;> exact skel_map_updCtrl_id _ i _ (fun c => by simp [skel])
      · rfl

theorem skel_map_fireCreated (s : Sys) (t : Nat) :
    (fireCreated s t).ctrls.map skel = s.ctrls.map skel := by
  unfold fireCreated
  generalize s.createdListeners = ps
  induction ps generalizing s with
  | nil => rfl
  | cons p ps ih =>
      rw [List.foldl_cons, ih]
      split
      · rfl
      · rw [skel_map_onTerminalCreated]

theorem skel_map_fireDisposed (s : Sys) (t : Nat) :
    (fireDisposed s t).ctrls.map skel = s.ctrls.map skel := by
  unfold fireDisposed
  generalize s.disposedListeners = ps
  induction ps generalizing s with
  | nil => rfl
  | cons p ps ih =>
      rw [List.foldl_cons, ih]
      split
      · rfl
      · rw [skel_map_onTerminalDisposed]

theorem hookTerminals_nextCid (ts : List Nat) (s : Sys) (i : Nat) :
    (hookTerminals s i ts).nextCid = s.nextCid := by
  induction ts generalizing s with
  | nil => rfl
  | cons t ts ih => rw [hookTerminals, ih]; rfl

theorem hookEvents_nextCid (s : Sys) (i : Nat) : (hookEvents s i).nextCid = s.nextCid := by
  unfold hookEvents
  split
  · rfl
  · split
    · split
      · simp [hookTerminals_nextCid]
      · rfl
    · rfl

theorem unhookEvents_nextCid (s : Sys) (i : Nat) : (unhookEvents s i).nextCid = s.nextCid := by
  unfold unhookEvents
  split
  · rfl
  · split
    · rfl
    · split
      · split
        · rfl
        · simp [dispAll_nextCid]
      · rfl

theorem onTerminalCreated_nextCid (s : Sys) (i t : Nat) :
    (onTerminalCreated s i t).nextCid = s.nextCid := by
  unfold onTerminalCreated
  split
  · rfl
  · split
    · split <;> rfl
    · rfl

theorem onTerminalDisposed_nextCid (s : Sys) (i t : Nat) :
    (onTerminalDisposed s i t).nextCid = s.nextCid := by
  unfold onTerminalDisposed
  split
  · rfl
  · split
    · rfl
    · split
      · split <;> rfl
      · rfl

theorem fireCreated_nextCid (s : Sys) (t : Nat) : (fireCreated s t).nextCid = s.nextCid := by
  unfold fireCreated
  generalize s.createdListeners = ps
  induction ps generalizing s with
  | nil => rfl
  | cons p ps ih =>
      rw [List.foldl_cons, ih]
      split
      · rfl
      · rw [onTerminalCreated_nextCid]

theorem fireDisposed_nextCid (s : Sys) (t : Nat) : (fireDisposed s t).nextCid = s.nextCid := by
  unfold fireDisposed
  generalize s.disposedListeners = ps
  induction ps generalizing s with
  | nil => rfl
  | cons p ps ih =>
      rw [List.foldl_cons, ih]
      split
      · rfl
      · rw [onTerminalDisposed_nextCid]

theorem handleTerminals_nextCid (s : Sys) (i : Nat) :
    (handleTerminals s i).nextCid = s.nextCid := rfl

theorem disposeMgrPart_nextCid (s : Sys) (i : Nat) (c : Controller) :
    (disposeMgrPart s i c).nextCid = s.nextCid := by
  cases hcs : c.createdSub with
  | none => simp [disposeMgrPart, hcs]
  | some cs =>
      cases hds : c.disposedSub with
      | none =>
          simp only [disposeMgrPart, hcs, hds]
          split
          · split <;> simp [handleTerminals_nextCid]
          · simp [dispAll_nextCid]
      | some ds =>
          simp only [disposeMgrPart, hcs, hds]
          split
          · split <;> simp [handleTerminals_nextCid]
          · simp [dispAll_nextCid]

theorem disposeCtrl_nextCid (s : Sys) (i : Nat) : (disposeCtrl s i).nextCid = s.nextCid := by
  unfold disposeCtrl
  split
  · rfl
  · unfold disposeCtrlBody
    rw [updCtrl_nextCid, unhookEvents_nextCid, disposeMgrPart_nextCid]
    rfl

theorem disposeMgrPart_skel (s : Sys) (i : Nat) (c : Controller)
    (hnm : c.createdSub = none) : disposeMgrPart s i c = s := by
  simp [disposeMgrPart, hnm]

/-! Step-level shapes for the three host events. -/

theorem termOpen_shape (s : Sys) (t : Nat) :
    (termOpen s t).instances = s.instances ∧ (termOpen s t).nextCid = s.nextCid
      ∧ (termOpen s t).ctrls.map skel = s.ctrls.map skel := by
  unfold termOpen
  exact ⟨fireCreated_instances _ t, fireCreated_nextCid _ t, skel_map_fireCreated _ t⟩

theorem termClose_shape (s : Sys) (t : Nat) :
    (termClose s t).instances = s.instances ∧ (termClose s t).nextCid = s.nextCid
      ∧ (termClose s t).ctrls.map skel = s.ctrls.map skel := by
  unfold termClose
  exact ⟨fireDisposed_instances _ t, fireDisposed_nextCid _ t, skel_map_fireDisposed _ t⟩

theorem configChange_shape (s : Sys) (i : Nat) (b : Bool) :
    (configChange s i b).instances = s.instances ∧ (configChange s i b).nextCid = s.nextCid
      ∧ (configChange s i b).ctrls.map skel = s.ctrls.map skel := by
  unfold configChange
  split
  · exact ⟨rfl, rfl, rfl⟩
  · split
    · exact ⟨rfl, rfl, skel_map_updCtrl_id _ i _ (fun c => by simp [skel])⟩
    · refine ⟨?_, ?_, ?_⟩
      · rw [hookEvents_instances, unhookEvents_instances, updCtrl_instances]
      · rw [hookEvents_nextCid, unhookEvents_nextCid, updCtrl_nextCid]
      · rw [skel_map_hookEvents, skel_map_unhookEvents,
            skel_map_updCtrl_id _ i _ (fun c => by simp [skel])]

/-- The observable shape of construction: push the fresh id, bump the id
counter, and append a live skeleton that holds the manager role exactly when
the registry was empty. -/
theorem newCtrl_shape (s : Sys) (b : Bool)
    (hfresh : ∀ c ∈ s.ctrls, c.cid ≠ s.nextCid) :
    (newCtrl s b).instances = s.instances ++ [s.nextCid]
    ∧ (newCtrl s b).nextCid = s.nextCid + 1
    ∧ (newCtrl s b).ctrls.map skel
        = s.ctrls.map skel ++ [(s.nextCid, true, s.instances.isEmpty)] := by
  have hold : (s.ctrls.map skel).map (roleG s.nextCid) = s.ctrls.map skel := by
    have hpt : ∀ p ∈ s.ctrls.map skel, roleG s.nextCid p = p := by
      intro p hp
      rcases List.mem_map.1 hp with ⟨c, hcmem, rfl⟩
      have := hfresh c hcmem
      simp [roleG, skel, this]
    calc (s.ctrls.map skel).map (roleG s.nextCid)
        = (s.ctrls.map skel).map id := List.map_congr_left hpt
      _ = s.ctrls.map skel := List.map_id _
  unfold newCtrl
  cases hem : s.instances.isEmpty
  · simp only [hem, Bool.false_eq_true, if_false]
    refine ⟨?_, ?_, ?_⟩
    · rw [hookEvents_instances]
    · rw [hookEvents_nextCid]
    · rw [skel_map_hookEvents]
      simp [skel]
  · simp only [hem, if_true]
    refine ⟨?_, ?_, ?_⟩
    · rw [hookEvents_instances, handleTerminals_instances, updCtrl_instances]
    · rw [hookEvents_nextCid, handleTerminals_nextCid, updCtrl_nextCid]
    · rw [skel_map_hookEvents, skel_map_handleTerminals,
          skel_map_updCtrl_id _ s.nextCid _ (fun c => by simp [skel])]
      simp [skel, roleG, hold]

theorem skel_map_dispAll (ps : List (Nat × Nat)) (s : Sys) :
    (dispAll s ps).ctrls.map skel = s.ctrls.map skel := by
  rw [dispAll_ctrls]

theorem disposeCtrl_skel_nonmgr (s : Sys) (i : Nat) (c : Controller)
    (hc : getCtrl s i = some c) (hnm : c.createdSub = none) :
    (disposeCtrl s i).ctrls.map skel = (s.ctrls.map skel).map (aliveG i) := by
  rw [disposeCtrl, hc]
  unfold disposeCtrlBody
  rw [skel_map_updCtrl_alive, skel_map_unhookEvents, disposeMgrPart_skel _ _ _ hnm]
  rfl

theorem disposeMgrPart_skel_mgr (s : Sys) (i : Nat) (c : Controller) (cs : Nat)
    (hcs : c.createdSub = some cs) :
    (disposeMgrPart s i c).ctrls.map skel
      = if 0 < s.instances.length then
          (match s.instances.head? with
           | some other => (s.ctrls.map skel).map (roleG other)
           | none => s.ctrls.map skel)
        else s.ctrls.map skel := by
  cases hds : c.disposedSub with
  | none =>
      simp only [disposeMgrPart, hcs, hds, dispSub_instances]
      split
      · split
        · rw [skel_map_updCtrl_id _ i _ (fun c => by simp [skel]),
              skel_map_handleTerminals,
              skel_map_updCtrl_id _ _ _ (fun c => by simp [skel])]
          rfl
        · rfl
      · rw [skel_map_updCtrl_id _ i _ (fun c => by simp [skel]), skel_map_dispAll]
        rfl
  | some ds =>
      simp only [disposeMgrPart, hcs, hds, dispSub_instances]
      split
      · split
        · rw [skel_map_updCtrl_id _ i _ (fun c => by simp [skel]),
              skel_map_handleTerminals,
              skel_map_updCtrl_id _ _ _ (fun c => by simp [skel])]
          rfl
        · rfl
      · rw [skel_map_updCtrl_id _ i _ (fun c => by simp [skel]), skel_map_dispAll]
        rfl

theorem disposeCtrl_skel_mgr (s : Sys) (i : Nat) (c : Controller) (cs : Nat)
    (hc : getCtrl s i = some c) (hcs : c.createdSub = some cs) :
    (disposeCtrl s i).ctrls.map skel
      = (if 0 < (jsSpliceRemove1 s.instances (jsIndexOf s.instances i)).length then
          (match (jsSpliceRemove1 s.instances (jsIndexOf s.instances i)).head? with
           | some other => (s.ctrls.map skel).map (roleG other)
           | none => s.ctrls.map skel)
        else s.ctrls.map skel).map (aliveG i) := by
  rw [disposeCtrl, hc]
  unfold disposeCtrlBody
  rw [skel_map_updCtrl_alive, skel_map_unhookEvents, disposeMgrPart_skel_mgr _ i c cs hcs]
  rfl

theorem aliveG_fst (i : Nat) (p : Nat × Bool × Bool) : (aliveG i p).1 = p.1 := by
  unfold aliveG; split <;> rfl

theorem roleG_fst (j : Nat) (p : Nat × Bool × Bool) : (roleG j p).1 = p.1 := by
  unfold roleG; split <;> rfl

theorem map_fst_aliveG (i : Nat) (sk : List (Nat × Bool × Bool)) :
    (sk.map (aliveG i)).map (·.1) = sk.map (·.1) := by
  rw [List.map_map]
  exact List.map_congr_left fun p _ => aliveG_fst i p

theorem map_fst_roleG (j : Nat) (sk : List (Nat × Bool × Bool)) :
    (sk.map (roleG j)).map (·.1) = sk.map (·.1) := by
  rw [List.map_map]
  exact List.map_congr_left fun p _ => roleG_fst j p

theorem INVd.inst_nodup {inst ncid sk} (h : INVd inst ncid sk) : inst.Nodup :=
  List.Nodup.sublist h.sub h.nd

theorem INVd.fst_lt_of_mem_inst {inst ncid sk} (h : INVd inst ncid sk) {x : Nat}
    (hx : x ∈ inst) : x < ncid := by
  rcases List.mem_map.1 (h.sub.subset hx) with ⟨p, hp, hpe⟩
  exact hpe ▸ h.lt p hp

/-- Construction at the skeleton level preserves the invariant. -/
theorem INVd_append (inst : List Nat) (ncid : Nat) (sk : List (Nat × Bool × Bool))
    (h : INVd inst ncid sk) :
    INVd (inst ++ [ncid]) (ncid + 1) (sk ++ [(ncid, true, inst.isEmpty)]) := by
  have hfst : (sk ++ [(ncid, true, inst.isEmpty)]).map (·.1) = sk.map (·.1) ++ [ncid] := by
    simp
  have hnotsk : ncid ∉ sk.map (·.1) := by
    intro hmem
    rcases List.mem_map.1 hmem with ⟨p, hp, hpe⟩
    exact absurd (h.lt p hp) (by rw [hpe]; exact lt_irrefl _)
  refine ⟨?_, ?_, ?_, ?_, ?_⟩
  · rw [hfst]
    exact h.sub.append (List.Sublist.refl _)
  · intro p hp
    rcases List.mem_append.1 hp with hp | hp
    · rw [h.mem p hp]
      constructor
      · intro hx
        exact List.mem_append.2 (Or.inl hx)
      · intro hx
        rcases List.mem_append.1 hx with hx | hx
        · exact hx
        · exfalso
          have hpe : p.1 = ncid := by simpa using hx
          exact absurd (h.lt p hp) (by rw [hpe]; exact lt_irrefl _)
    · have hpe : p = (ncid, true, inst.isEmpty) := by simpa using hp
      subst hpe
      simp
  · rw [hfst]
    rw [List.nodup_append]
    exact ⟨h.nd, List.nodup_singleton _, by simpa using hnotsk⟩
  · intro p hp
    rcases List.mem_append.1 hp with hp | hp
    · exact lt_trans (h.lt p hp) (Nat.lt_succ_self _)
    · have hpe : p = (ncid, true, inst.isEmpty) := by simpa using hp
      subst hpe
      exact Nat.lt_succ_self _
  · intro p hp halive
    cases hinst : inst with
    | nil =>
        rcases List.mem_append.1 hp with hp | hp
        · have := (h.mem p hp).1 halive
          rw [hinst] at this
          cases this
        · have hpe : p = (ncid, true, inst.isEmpty) := by simpa using hp
          subst hpe
          rw [hinst]
          simp
    | cons y t =>
        have hy : y ∈ inst := by rw [hinst]; exact List.mem_cons_self _ _
        have hyne : y ≠ ncid := by
          intro hcon
          exact absurd (h.fst_lt_of_mem_inst hy) (by rw [hcon]; exact lt_irrefl _)
        rcases List.mem_append.1 hp with hp | hp
        · have hrole := h.role p hp halive
          rw [hinst] at hrole
          simpa using hrole
        · have hpe : p = (ncid, true, inst.isEmpty) := by simpa using hp
          subst hpe
          simp [hinst, hyne]

/-- Disposal of a live non-manager at the skeleton level. -/
theorem INVd_dispose_nonmgr (inst : List Nat) (ncid i : Nat)
    (sk : List (Nat × Bool × Bool)) (h : INVd inst ncid sk) (hi : i ∈ inst)
    (hhead : inst.head? ≠ some i) :
    INVd (inst.erase i) ncid (sk.map (aliveG i)) := by
  have hnodup := h.inst_nodup
  obtain ⟨y, t, hinst⟩ : ∃ y t, inst = y :: t := by
    cases inst with
    | nil => cases hi
    | cons y t => exact ⟨y, t, rfl⟩
  have hyne : y ≠ i := by
    intro hcon
    exact hhead (by rw [hinst, hcon]; rfl)
  have herase_head : (inst.erase i).head? = inst.head? := by
    rw [hinst, List.erase_cons_tail (by simpa using hyne)]
    rfl
  refine ⟨?_, ?_, ?_, ?_, ?_⟩
  · rw [map_fst_aliveG]
    exact (List.erase_sublist _ _).trans h.sub
  · intro p' hp'
    rcases List.mem_map.1 hp' with ⟨p, hp, rfl⟩
    by_cases hpi : p.1 = i
    · simp only [aliveG, hpi, if_true]
      constructor
      · intro hcon
        cases hcon
      · intro hx
        exact absurd hx hnodup.not_mem_erase
    · have hid : aliveG i p = p := by simp [aliveG, hpi]
      rw [hid, h.mem p hp, List.mem_erase_of_ne hpi]
  · rw [map_fst_aliveG]
    exact h.nd
  · intro p' hp'
    rcases List.mem_map.1 hp' with ⟨p, hp, rfl⟩
    rw [aliveG_fst]
    exact h.lt p hp
  · intro p' hp' halive
    rcases List.mem_map.1 hp' with ⟨p, hp, rfl⟩
    by_cases hpi : p.1 = i
    · simp [aliveG, hpi] at halive
    · have hid : aliveG i p = p := by simp [aliveG, hpi]
      rw [hid] at halive ⊢
      rw [herase_head]
      exact h.role p hp halive

/-- Disposal of the last live controller (the manager) at the skeleton
level. -/
theorem INVd_dispose_last (inst : List Nat) (ncid i : Nat)
    (sk : List (Nat × Bool × Bool)) (h : INVd inst ncid sk) (hinst : inst = [i]) :
    INVd [] ncid (sk.map (aliveG i)) := by
  refine ⟨List.nil_sublist _, ?_, ?_, ?_, ?_⟩
  · intro p' hp'
    rcases List.mem_map.1 hp' with ⟨p, hp, rfl⟩
    by_cases hpi : p.1 = i
    · simp [aliveG, hpi]
    · have hid : aliveG i p = p := by simp [aliveG, hpi]
      rw [hid]
      have hm := h.mem p hp
      rw [hinst] at hm
      simp only [List.mem_singleton] at hm
      rw [hm]
      simp [hpi]
  · rw [map_fst_aliveG]
    exact h.nd
  · intro p' hp'
    rcases List.mem_map.1 hp' with ⟨p, hp, rfl⟩
    rw [aliveG_fst]
    exact h.lt p hp
  · intro p' hp' halive
    rcases List.mem_map.1 hp' with ⟨p, hp, rfl⟩
    by_cases hpi : p.1 = i
    · simp [aliveG, hpi] at halive
    · have hid : aliveG i p = p := by simp [aliveG, hpi]
      rw [hid] at halive
      have hm := (h.mem p hp).1 halive
      rw [hinst] at hm
      simp only [List.mem_singleton] at hm
      exact absurd hm hpi

/-- Disposal of the manager with another live controller present: the
registry head hands the role to the next entry. -/
theorem INVd_dispose_transfer (inst : List Nat) (ncid i o : Nat) (rest : List Nat)
    (sk : List (Nat × Bool × Bool)) (h : INVd inst ncid sk)
    (hinst : inst = i :: o :: rest) :
    INVd (o :: rest) ncid ((sk.map (roleG o)).map (aliveG i)) := by
  have hnodup := h.inst_nodup
  rw [hinst] at hnodup
  have hinotmem : i ∉ o :: rest := (List.nodup_cons.1 hnodup).1
  have hio : i ≠ o := by
    intro hcon
    exact hinotmem (hcon ▸ List.mem_cons_self _ _)
  have hfst : ((sk.map (roleG o)).map (aliveG i)).map (·.1) = sk.map (·.1) := by
    rw [map_fst_aliveG, map_fst_roleG]
  refine ⟨?_, ?_, ?_, ?_, ?_⟩
  · rw [hfst]
    have hsub : (o :: rest).Sublist inst := by
      rw [hinst]
      exact List.sublist_cons_self _ _
    exact hsub.trans h.sub
  · intro p'' hp''
    rcases List.mem_map.1 hp'' with ⟨p', hp', rfl⟩
    rcases List.mem_map.1 hp' with ⟨p, hp, rfl⟩
    by_cases hpi : p.1 = i
    · have hro : roleG o p = p := by
        have : p.1 ≠ o := by rw [hpi]; exact hio
        simp [roleG, this]
      rw [hro]
      simp only [aliveG, hpi, if_true]
      constructor
      · intro hcon
        cases hcon
      · intro hx
        exact absurd hx hinotmem
    · by_cases hpo : p.1 = o
      · have halive_o : p.2.1 = true := by
          refine (h.mem p hp).2 ?_
          rw [hinst, hpo]
          exact List.mem_cons_of_mem _ (List.mem_cons_self _ _)
        have hro : roleG o p = (p.1, p.2.1, true) := by simp [roleG, hpo]
        rw [hro]
        have hal : aliveG i (p.1, p.2.1, true) = (p.1, p.2.1, true) := by
          simp [aliveG, hpi]
        rw [hal]
        simp [halive_o, hpo]
      · have hro : roleG o p = p := by simp [roleG, hpo]
        have hal : aliveG i p = p := by simp [aliveG, hpi]
        rw [hro, hal, h.mem p hp, hinst]
        simp [hpi]
  · rw [hfst]
    exact h.nd
  · intro p'' hp''
    rcases List.mem_map.1 hp'' with ⟨p', hp', rfl⟩
    rcases List.mem_map.1 hp' with ⟨p, hp, rfl⟩
    rw [aliveG_fst, roleG_fst]
    exact h.lt p hp
  · intro p'' hp'' halive
    rcases List.mem_map.1 hp'' with ⟨p', hp', rfl⟩
    rcases List.mem_map.1 hp' with ⟨p, hp, rfl⟩
    by_cases hpi : p.1 = i
    · have hro : roleG o p = p := by
        have : p.1 ≠ o := by rw [hpi]; exact hio
        simp [roleG, this]
      rw [hro] at halive
      simp [aliveG, hpi] at halive
    · by_cases hpo : p.1 = o
      · have hro : roleG o p = (p.1, p.2.1, true) := by simp [roleG, hpo]
        have hal : aliveG i (p.1, p.2.1, true) = (p.1, p.2.1, true) := by
          simp [aliveG, hpi]
        rw [hro, hal]
        simp [hpo]
      · have hro : roleG o p = p := by simp [roleG, hpo]
        have hal : aliveG i p = p := by simp [aliveG, hpi]
        rw [hro, hal] at halive ⊢
        have hrole := h.role p hp halive
        rw [hinst] at hrole
        have hfalse : p.2.2 = false := by
          cases hb : p.2.2 with
          | true =>
              have := hrole.1 hb
              simp only [List.head?_cons, Option.some.injEq] at this
              exact absurd this.symm hpi
          | false => rfl
        rw [hfalse]
        simp [Ne.symm hpo]

theorem inst_eq_filter_aux : ∀ (sk : List (Nat × Bool × Bool)) (inst : List Nat),
    inst.Sublist (sk.map (·.1)) → (∀ p ∈ sk, (p.2.1 = true ↔ p.1 ∈ inst)) →
    (sk.map (·.1)).Nodup → inst = (sk.filter (fun p => p.2.1)).map (·.1) := by
  intro sk
  induction sk with
  | nil =>
      intro inst hsub _ _
      simpa using List.sublist_nil.1 (by simpa using hsub)
  | cons p sk ih =>
      intro inst hsub hmem hnd
      rw [List.map_cons] at hsub hnd
      have hp1 := (List.nodup_cons.1 hnd).1
      have hndtail := (List.nodup_cons.1 hnd).2
      cases hsub with
      | cons _ htail =>
          have hp1inst : p.1 ∉ inst := fun hmem' => hp1 (htail.subset hmem')
          have halive : p.2.1 = false := by
            cases hb : p.2.1 with
            | true => exact absurd ((hmem p (List.mem_cons_self _ _)).1 hb) hp1inst
            | false => rfl
          rw [List.filter_cons_of_neg (by simp [halive])]
          exact ih inst htail (fun q hq => hmem q (List.mem_cons_of_mem _ hq)) hndtail
      | cons₂ _ htail =>
          have halive : p.2.1 = true :=
            (hmem p (List.mem_cons_self _ _)).2 (List.mem_cons_self _ _)
          rw [List.filter_cons_of_pos (by simp [halive]), List.map_cons]
          congr 1
          refine ih _ htail ?_ hndtail
          intro q hq
          rw [hmem q (List.mem_cons_of_mem _ hq)]
          constructor
          · intro hx
            rcases List.mem_cons.1 hx with hx | hx
            · exact absurd (hx ▸ List.mem_map.2 ⟨q, hq, rfl⟩) hp1
            · exact hx
          · intro hx
            exact List.mem_cons_of_mem _ hx

/-- The registry equals (in order) the live part of the skeleton list. -/
theorem INVd.inst_eq_filter {inst ncid sk} (h : INVd inst ncid sk) :
    inst = (sk.filter (fun p => p.2.1)).map (·.1) :=
  inst_eq_filter_aux sk inst h.sub h.mem h.nd

theorem length_filter_fst_eq : ∀ (sk : List (Nat × Bool × Bool)) (hd : Nat),
    (sk.map (·.1)).Nodup → hd ∈ sk.map (·.1) →
    (sk.filter (fun p => p.1 == hd)).length = 1 := by
  intro sk
  induction sk with
  | nil =>
      intro hd _ hm
      cases hm
  | cons p sk ih =>
      intro hd hnd hm
      rw [List.map_cons] at hnd hm
      have hp1 := (List.nodup_cons.1 hnd).1
      have hndtail := (List.nodup_cons.1 hnd).2
      by_cases hph : p.1 = hd
      · rw [List.filter_cons_of_pos (by simp [hph])]
        have hnone : sk.filter (fun p => p.1 == hd) = [] := by
          refine List.filter_eq_nil_iff.2 ?_
          intro q hq
          simp only [beq_iff_eq]
          intro hcon
          exact hp1 (by rw [hph, ← hcon]; exact List.mem_map.2 ⟨q, hq, rfl⟩)
        rw [hnone]
        rfl
      · rw [List.filter_cons_of_neg (by simp [hph])]
        rcases List.mem_cons.1 hm with hm | hm
        · exact absurd hm.symm hph
        · exact ih hd hndtail hm

/-- Exactly one live skeleton entry holds the manager role when the registry
is non-empty. -/
theorem INVd.role_unique {inst ncid sk} (h : INVd inst ncid sk) (hne : inst ≠ []) :
    (sk.filter (fun p => p.2.1 && p.2.2)).length = 1 := by
  obtain ⟨hd, t, hinst⟩ : ∃ hd t, inst = hd :: t := by
    cases inst with
    | nil => exact absurd rfl hne
    | cons hd t => exact ⟨hd, t, rfl⟩
  have hhd_mem : hd ∈ inst := by rw [hinst]; exact List.mem_cons_self _ _
  have hcongr : sk.filter (fun p => p.2.1 && p.2.2) = sk.filter (fun p => p.1 == hd) := by
    refine List.filter_congr ?_
    intro p hp
    by_cases hph : p.1 = hd
    · have halive : p.2.1 = true := (h.mem p hp).2 (hph ▸ hhd_mem)
      have hrole : p.2.2 = true := by
        refine (h.role p hp halive).2 ?_
        rw [hinst, hph]
        rfl
      simp [halive, hrole, hph]
    · have hout : (p.2.1 && p.2.2) = false := by
        cases hb : (p.2.1 && p.2.2) with
        | false => rfl
        | true =>
            have halive : p.2.1 = true := (Bool.and_eq_true_iff.1 hb).1
            have hrole : p.2.2 = true := (Bool.and_eq_true_iff.1 hb).2
            have := (h.role p hp halive).1 hrole
            rw [hinst] at this
            simp only [List.head?_cons, Option.some.injEq] at this
            exact absurd this.symm hph
      simp [hout, hph]
  rw [hcongr]
  exact length_filter_fst_eq sk hd h.nd (h.sub.subset hhd_mem)

theorem ctrls_filter_alive_map_cid (l : List Controller) :
    (l.filter (fun c => c.alive)).map (fun c => c.cid)
      = ((l.map skel).filter (fun p => p.2.1)).map (·.1) := by
  induction l with
  | nil => rfl
  | cons c l ih =>
      by_cases hc : c.alive
      · simp [List.filter_cons, hc, skel, ih]
      · simp [List.filter_cons, hc, skel, ih]

theorem ctrls_filter_role_length (l : List Controller) :
    (l.filter (fun c => c.alive && c.createdSub.isSome)).length
      = ((l.map skel).filter (fun p => p.2.1 && p.2.2)).length := by
  induction l with
  | nil => rfl
  | cons c l ih =>
      by_cases hc : (c.alive && c.createdSub.isSome) = true
      · simp [List.filter_cons, hc, skel, ih]
      · simp [List.filter_cons, hc, skel, ih]

theorem INV_init : INV init := by
  refine ⟨?_, ?_, ?_, ?_, ?_⟩ <;> simp [init]

theorem INV_newCtrl (s : Sys) (b : Bool) (h : INV s) : INV (newCtrl s b) := by
  have hfresh : ∀ c ∈ s.ctrls, c.cid ≠ s.nextCid := by
    intro c hc hcon
    have hmem : skel c ∈ s.ctrls.map skel := List.mem_map.2 ⟨c, hc, rfl⟩
    have := h.lt _ hmem
    rw [show (skel c).1 = c.cid from rfl, hcon] at this
    exact absurd this (lt_irrefl _)
  obtain ⟨hi, hn, hk⟩ := newCtrl_shape s b hfresh
  unfold INV
  rw [hi, hn, hk]
  exact INVd_append _ _ _ h

theorem INV_dispose (s : Sys) (i : Nat) (h : INV s) (hok : i ∈ s.instances) :
    INV (disposeCtrl s i) := by
  have hc_ex : ∃ c, getCtrl s i = some c := by
    have hfst : i ∈ s.ctrls.map (·.cid) := by
      have hmm : s.ctrls.map (fun c => c.cid) = (s.ctrls.map skel).map (·.1) := by
        rw [List.map_map]
        rfl
      rw [hmm]
      exact h.sub.subset hok
    rcases List.mem_map.1 hfst with ⟨c, hcmem, hcid⟩
    cases hfind : getCtrl s i with
    | some c => exact ⟨c, rfl⟩
    | none =>
        exfalso
        unfold getCtrl at hfind
        have := List.find?_eq_none.1 hfind c hcmem
        simp [hcid] at this
  obtain ⟨c, hc⟩ := hc_ex
  have hcidc : c.cid = i := (getCtrl_mem hc).2
  have hcmem : c ∈ s.ctrls := (getCtrl_mem hc).1
  have hcskel : skel c ∈ s.ctrls.map skel := List.mem_map.2 ⟨c, hcmem, rfl⟩
  have halivec : (skel c).2.1 = true := by
    refine (h.mem _ hcskel).2 ?_
    rw [show (skel c).1 = c.cid from rfl, hcidc]
    exact hok
  have herase : jsSpliceRemove1 s.instances (jsIndexOf s.instances i)
      = s.instances.erase i := jsSplice_jsIndexOf_of_mem _ _ hok
  have hinsts : (disposeCtrl s i).instances = s.instances.erase i := by
    rw [disposeCtrl_instances s i c hc, herase]
  have hnext : (disposeCtrl s i).nextCid = s.nextCid := disposeCtrl_nextCid s i
  by_cases hmgr : c.createdSub.isSome = true
  · have hhead : s.instances.head? = some i := by
      have hr := (h.role _ hcskel halivec).1 hmgr
      rw [show (skel c).1 = c.cid from rfl, hcidc] at hr
      exact hr
    obtain ⟨t, hinst⟩ : ∃ t, s.instances = i :: t := by
      cases hil : s.instances with
      | nil => rw [hil] at hhead; cases hhead
      | cons y t =>
          rw [hil] at hhead
          simp only [List.head?_cons, Option.some.injEq] at hhead
          exact ⟨t, by rw [hhead]⟩
    obtain ⟨cs, hcs⟩ := Option.isSome_iff_exists.1 hmgr
    have hskel := disposeCtrl_skel_mgr s i c cs hc hcs
    rw [herase] at hskel
    have herase2 : s.instances.erase i = t := by
      rw [hinst, List.erase_cons_head]
    cases t with
    | nil =>
        rw [herase2] at hskel
        simp only [List.length_nil, lt_irrefl, if_false] at hskel
        unfold INV
        rw [hinsts, hnext, hskel, herase2]
        exact INVd_dispose_last _ _ _ _ h hinst
    | cons o rest =>
        rw [herase2] at hskel
        have hskel' : (disposeCtrl s i).ctrls.map skel
            = ((s.ctrls.map skel).map (roleG o)).map (aliveG i) := by
          simpa using hskel
        unfold INV
        rw [hinsts, hnext, hskel', herase2]
        exact INVd_dispose_transfer _ _ _ _ _ _ h hinst
  · have hnm : c.createdSub = none := by
      cases hcn : c.createdSub with
      | none => rfl
      | some cs => rw [hcn] at hmgr; simp at hmgr
    have hheadne : s.instances.head? ≠ some i := by
      intro hcon
      refine hmgr ?_
      have := (h.role _ hcskel halivec).2
        (by rw [show (skel c).1 = c.cid from rfl, hcidc]; exact hcon)
      exact this
    have hskel := disposeCtrl_skel_nonmgr s i c hc hnm
    unfold INV
    rw [hinsts, hnext, hskel]
    exact INVd_dispose_nonmgr _ _ _ _ h hok hheadne

theorem INV_step (s : Sys) (op : Op) (h : INV s) (hok : okOp s op = true) :
    INV (step s op) := by
  cases op with
  | newCtrl b => exact INV_newCtrl s b h
  | disposeCtrl i =>
      have hi : i ∈ s.instances := by simpa [okOp] using hok
      exact INV_dispose s i h hi
  | termOpen t =>
      obtain ⟨h1, h2, h3⟩ := termOpen_shape s t
      unfold INV
      rw [show (step s (Op.termOpen t)) = termOpen s t from rfl, h1, h2, h3]
      exact h
  | termClose t =>
      obtain ⟨h1, h2, h3⟩ := termClose_shape s t
      unfold INV
      rw [show (step s (Op.termClose t)) = termClose s t from rfl, h1, h2, h3]
      exact h
  | configChange i b =>
      obtain ⟨h1, h2, h3⟩ := configChange_shape s i b
      unfold INV
      rw [show (step s (Op.configChange i b)) = configChange s i b from rfl, h1, h2, h3]
      exact h

theorem INV_runOps (ops : List Op) : ∀ (s : Sys), INV s → validOps s ops = true →
    INV (runOps s ops) := by
  induction ops with
  | nil => intro s h _; exact h
  | cons op ops ih =>
      intro s h hv
      rw [validOps, Bool.and_eq_true] at hv
      exact ih (step s op) (INV_step s op h hv.1) hv.2

theorem INV.fresh_cid {s : Sys} (h : INV s) :
    ∀ c ∈ s.ctrls, c.cid ≠ s.nextCid := by
  intro c hc hcon
  have hmem : skel c ∈ s.ctrls.map skel := List.mem_map.2 ⟨c, hc, rfl⟩
  have := h.lt _ hmem
  rw [show (skel c).1 = c.cid from rfl, hcon] at this
  exact absurd this (lt_irrefl _)

theorem INV.getCtrl_of_mem {s : Sys} (h : INV s) {i : Nat} (hok : i ∈ s.instances) :
    ∃ c, getCtrl s i = some c := by
  have hfst : i ∈ s.ctrls.map (·.cid) := by
    have hmm : s.ctrls.map (fun c => c.cid) = (s.ctrls.map skel).map (·.1) := by
      rw [List.map_map]
      rfl
    rw [hmm]
    exact h.sub.subset hok
  rcases List.mem_map.1 hfst with ⟨c, hcmem, hcid⟩
  cases hfind : getCtrl s i with
  | some c => exact ⟨c, rfl⟩
  | none =>
      exfalso
      unfold getCtrl at hfind
      have := List.find?_eq_none.1 hfind c hcmem
      simp [hcid] at this

/-- **C8**: after any well-behaved operation sequence, the registry holds
exactly the live (constructed and not yet disposed) controllers in creation
order; construction appends the new instance at the end of the registry, and
a well-targeted `dispose` removes exactly the disposed instance. -/
theorem C8_registry_mirrors_live (ops : List Op) (hv : validOps init ops = true) :
    (runOps init ops).instances
      = ((runOps init ops).ctrls.filter (fun c => c.alive)).map (fun c => c.cid)
    ∧ (∀ b, (step (runOps init ops) (Op.newCtrl b)).instances
        = (runOps init ops).instances ++ [(runOps init ops).nextCid])
    ∧ (∀ i ∈ (runOps init ops).instances,
        (step (runOps init ops) (Op.disposeCtrl i)).instances
          = (runOps init ops).instances.erase i) := by
  have h := INV_runOps ops init INV_init hv
  refine ⟨?_, ?_, ?_⟩
  · rw [ctrls_filter_alive_map_cid]
    exact h.inst_eq_filter
  · intro b
    exact (newCtrl_shape _ b h.fresh_cid).1
  · intro i hi
    obtain ⟨c, hc⟩ := h.getCtrl_of_mem hi
    rw [show step (runOps init ops) (Op.disposeCtrl i) = disposeCtrl (runOps init ops) i
          from rfl,
        disposeCtrl_instances _ i c hc, jsSplice_jsIndexOf_of_mem _ _ hi]

/-- Witness for C8: after `[newCtrl, newCtrl, dispose 0]` the registry is
`[1]`, mirroring the single live controller; a further construction appends
id `2` and a further `dispose 1` removes exactly `1`. -/
theorem C8_witness :
    validOps init [Op.newCtrl true, Op.newCtrl false, Op.disposeCtrl 0] = true
    ∧ (runOps init [Op.newCtrl true, Op.newCtrl false, Op.disposeCtrl 0]).instances
        = (((runOps init [Op.newCtrl true, Op.newCtrl false, Op.disposeCtrl 0]).ctrls.filter
            (fun c => c.alive)).map (fun c => c.cid))
    ∧ (step (runOps init [Op.newCtrl true, Op.newCtrl false, Op.disposeCtrl 0])
          (Op.newCtrl true)).instances
        = (runOps init [Op.newCtrl true, Op.newCtrl false, Op.disposeCtrl 0]).instances
          ++ [(runOps init [Op.newCtrl true, Op.newCtrl false, Op.disposeCtrl 0]).nextCid]
    ∧ (step (runOps init [Op.newCtrl true, Op.newCtrl false, Op.disposeCtrl 0])
          (Op.disposeCtrl 1)).instances
        = (runOps init [Op.newCtrl true, Op.newCtrl false, Op.disposeCtrl 0]).instances.erase 1 :=
  ⟨by decide,
    (C8_registry_mirrors_live [Op.newCtrl true, Op.newCtrl false, Op.disposeCtrl 0]
      (by decide)).1,
    (C8_registry_mirrors_live [Op.newCtrl true, Op.newCtrl false, Op.disposeCtrl 0]
      (by decide)).2.1 true,
    (C8_registry_mirrors_live [Op.newCtrl true, Op.newCtrl false, Op.disposeCtrl 0]
      (by decide)).2.2 1 (by decide)⟩

/-- **C1**: along any well-behaved sequence of constructions and disposals
(together with arbitrary terminal and configuration events), whenever at
least one live controller exists exactly one of them holds the
terminal-manager role (`_manageTerminals`), and when none is live no live
controller holds it. -/
theorem C1_unique_manager (ops : List Op) (hv : validOps init ops = true) :
    ((runOps init ops).ctrls.filter (fun c => c.alive) ≠ [] →
      ((runOps init ops).ctrls.filter (fun c => c.alive && c.createdSub.isSome)).length = 1)
    ∧ ((runOps init ops).ctrls.filter (fun c => c.alive) = [] →
      (runOps init ops).ctrls.filter (fun c => c.alive && c.createdSub.isSome) = []) := by
  have h := INV_runOps ops init INV_init hv
  constructor
  · intro hne
    rw [ctrls_filter_role_length]
    refine h.role_unique ?_
    intro hinst0
    apply hne
    have hf := h.inst_eq_filter
    rw [hinst0] at hf
    have hmapnil : ((runOps init ops).ctrls.filter (fun c => c.alive)).map
        (fun c => c.cid) = [] := by
      rw [ctrls_filter_alive_map_cid]
      exact hf.symm
    exact List.map_eq_nil_iff.1 hmapnil
  · intro hnil
    refine List.filter_eq_nil_iff.2 ?_
    intro c hcmem hcon
    have halive : c.alive = true := (Bool.and_eq_true_iff.1 hcon).1
    have hmem : c ∈ (runOps init ops).ctrls.filter (fun c => c.alive) :=
      List.mem_filter.2 ⟨hcmem, halive⟩
    rw [hnil] at hmem
    cases hmem

/-- Witness for C1: with two controllers created and the first (the manager)
disposed, exactly one live controller holds the role; after disposing the
last one as well, no live controller remains and none holds it. -/
theorem C1_witness :
    (validOps init [Op.newCtrl true, Op.newCtrl true, Op.disposeCtrl 0] = true
      ∧ (runOps init [Op.newCtrl true, Op.newCtrl true, Op.disposeCtrl 0]).ctrls.filter
          (fun c => c.alive) ≠ [])
    ∧ ((runOps init [Op.newCtrl true, Op.newCtrl true, Op.disposeCtrl 0]).ctrls.filter
        (fun c => c.alive && c.createdSub.isSome)).length = 1
    ∧ (validOps init [Op.newCtrl true, Op.disposeCtrl 0] = true
      ∧ (runOps init [Op.newCtrl true, Op.disposeCtrl 0]).ctrls.filter
          (fun c => c.alive) = [])
    ∧ (runOps init [Op.newCtrl true, Op.disposeCtrl 0]).ctrls.filter
        (fun c => c.alive && c.createdSub.isSome) = [] :=
  ⟨⟨by decide, by decide⟩,
    (C1_unique_manager [Op.newCtrl true, Op.newCtrl true, Op.disposeCtrl 0]
      (by decide)).1 (by decide),
    ⟨by decide, by decide⟩,
    (C1_unique_manager [Op.newCtrl true, Op.disposeCtrl 0] (by decide)).2 (by decide)⟩

end FocusOnHover
